import Mathlib

/-!
# Verification of the Retrieval Scoring & Self-Correcting Evaluation Engine

A shallow embedding of the core scoring code of the AI-Knowledge-Search
backend (`app/qa.py`, `app/vector_store.py`, `app/faithfulness.py`,
`app/batch_evaluation.py`) together with proofs and refutations of the
frozen specification claims.

Modelling conventions:
* Python text is modelled as `Str := List Char`; `str.lower()` as a
  character-wise `Char.toLower` map, `str.split()` as splitting on
  whitespace and dropping empty pieces.
* Python floats are idealised as real numbers (`ℝ`) where square roots
  occur and as rationals (`ℚ`) elsewhere; `round(x, n)` is Python's
  round-half-to-even on the idealised value.
* File and network I/O (the chunk store, embedding and LLM providers)
  are externalised as explicit parameters or oracle functions.
* Python exceptions are modelled with `Except`; returned error dicts
  (`{"error": ...}`) are a dedicated constructor, distinct from raising.
-/

/-! ## Python string primitives over `Str := List Char` -/

/-- Python text, modelled as a list of characters. -/
abbrev Str := List Char

/-- Coerce a Lean string literal into the `Str` model. -/
def str (s : String) : Str := s.data

/-- `str.lower()`: character-wise lowercasing. -/
def pyLower (s : Str) : Str := s.map Char.toLower

/-- Split a character list at whitespace characters, keeping empty pieces
(the auxiliary step of Python's `str.split()`). -/
def splitWS : Str → List Str
  | [] => [[]]
  | c :: cs =>
    match splitWS cs with
    | [] => if c.isWhitespace then [[], []] else [[c]]
    | w :: ws => if c.isWhitespace then [] :: w :: ws else (c :: w) :: ws

/-- `str.split()` with no separator: split on whitespace runs, dropping
empty pieces. -/
def pyWords (s : Str) : List Str := (splitWS s).filter (fun w => w ≠ [])

/-- `' '.join(words)`. -/
def joinWords (ws : List Str) : Str := List.intercalate [' '] ws

/-- Python's substring test `needle in hay`. -/
def isSub (needle hay : Str) : Bool := decide (needle <:+: hay)

/-- A `\w` word character (ASCII: alphanumeric or underscore), as used by
`re.sub(r'[^\w\s]', ' ', text)` in `faithfulness._tokenize`. -/
def isWordChar (c : Char) : Bool := c.isAlphanum || c = '_'

/-- `faithfulness._tokenize`: replace every character that is neither a
word character nor whitespace by a space, then split on whitespace. -/
def tokenize (s : Str) : List Str :=
  pyWords (s.map (fun c => if isWordChar c || c.isWhitespace then c else ' '))

/-! ## Python `round` (banker's rounding), idealised over `ℚ` -/

/-- Round-half-to-even to the nearest integer, as Python's builtin `round`
behaves on exact values. -/
def rndHalfEven (x : ℚ) : ℤ :=
  if Int.fract x = 1/2 then (if 2 ∣ ⌊x⌋ then ⌊x⌋ else ⌊x⌋ + 1) else round x

/-- Python's `round(x, d)` for `d` decimal digits, idealised over `ℚ`. -/
def pyRound (d : ℕ) (x : ℚ) : ℚ := (rndHalfEven (10 ^ d * x) : ℚ) / 10 ^ d

/-! ## Similarity Engine (`app/vector_store.py`, `app/qa.py`)

Python floats are idealised as `ℝ`. Embedding vectors are `List ℝ`. -/

/-- Elementwise dot product of two vectors, Python's
`sum(x * y for x, y in zip(a, b))` (extra entries of the longer vector
are ignored, as `zip` truncates). -/
def listDot (a b : List ℝ) : ℝ := (List.zipWith (fun x y => x * y) a b).sum

/-- `sum(x * x for x in v)`. -/
def sumSq (v : List ℝ) : ℝ := listDot v v

/-- `math.sqrt(sum(x * x for x in v))`. -/
noncomputable def l2norm (v : List ℝ) : ℝ := Real.sqrt (sumSq v)

/-- `vector_store._cosine_similarity` (and the local `_cosine` of
`qa.calculate_all_similarities`, which is the same function): `0.0` on
dimension mismatch or when either norm is zero, else `dot / (na * nb)`. -/
noncomputable def cosine_similarity (a b : List ℝ) : ℝ :=
  if a.length ≠ b.length then 0
  else if l2norm a = 0 ∨ l2norm b = 0 then 0
  else listDot a b / (l2norm a * l2norm b)

/-- `vector_store._dot` / the local `_dot` of `calculate_all_similarities`:
raw dot product, `0.0` on dimension mismatch. -/
noncomputable def dotSim (a b : List ℝ) : ℝ :=
  if a.length ≠ b.length then 0 else listDot a b

/-- The `-1e9` sentinel used by `_neg_l2` / `_neg_l1` on mismatch. -/
noncomputable def negBig : ℝ := -(10 ^ 9)

/-- `vector_store._neg_l2` / the local `_neg_l2`: negative Euclidean
distance, `-1e9` on dimension mismatch. -/
noncomputable def neg_l2 (a b : List ℝ) : ℝ :=
  if a.length ≠ b.length then negBig
  else -(Real.sqrt ((List.zipWith (fun x y => (x - y) * (x - y)) a b).sum))

/-- `vector_store._neg_l1` / the local `_neg_l1`: negative Manhattan
distance, `-1e9` on dimension mismatch. -/
noncomputable def neg_l1 (a b : List ℝ) : ℝ :=
  if a.length ≠ b.length then negBig
  else -((List.zipWith (fun x y => |x - y|) a b).sum)

/-- `vector_store._keyword_overlap_score` (and the local
`_keyword_overlap` of `calculate_all_similarities`): Jaccard overlap of
whitespace-split lowercased token sets, `0.0` when either set is empty. -/
noncomputable def keyword_overlap (query_text text : Str) : ℝ :=
  let q := (pyWords (pyLower query_text)).dedup
  let d := (pyWords (pyLower text)).dedup
  if q = [] ∨ d = [] then 0
  else ((q.filter (fun t => t ∈ d)).length : ℝ) /
    ((q.length + (d.filter (fun t => t ∉ q)).length : ℕ) : ℝ)

/-- `qa._l2_normalize` with its default `eps = 1e-12`: returns the vector
unchanged when its norm is at most `eps`, else divides every entry by the
norm. -/
noncomputable def l2_normalize (v : List ℝ) : List ℝ :=
  let n := l2norm v
  if n ≤ 1 / 10 ^ 12 then v else v.map (fun x => x / n)

/-- The per-method score dictionary built by
`qa.calculate_all_similarities`. -/
structure SimScores where
  cosine : ℝ
  dot : ℝ
  neg_l2 : ℝ
  neg_l1 : ℝ
  hybrid : ℝ

/-- `qa.calculate_all_similarities`: optionally L2-normalize both vectors,
then compute all five similarity scores for the pair. -/
noncomputable def calculate_all_similarities (query_embedding chunk_embedding : List ℝ)
    (chunk_text query_text : Str) (normalize_vectors : Bool) : SimScores :=
  let q := if normalize_vectors then l2_normalize query_embedding else query_embedding
  let c := if normalize_vectors then l2_normalize chunk_embedding else chunk_embedding
  let cos := cosine_similarity q c
  { cosine := cos
    dot := dotSim q c
    neg_l2 := neg_l2 q c
    neg_l1 := neg_l1 q c
    hybrid := 0.7 * cos + 0.3 * keyword_overlap query_text chunk_text }

/-! ## Stable descending sort and Python list slicing

`results.sort(key=..., reverse=True)` / `sorted(..., reverse=True)` are
modelled by a stable insertion sort on a real-valued key; `l[:k]` for an
arbitrary Python `int` `k` is modelled by `pySlice`. -/

/-- Insert `x` before the first element with a strictly smaller key
(so that ties keep their original order, as Python's stable sort does). -/
noncomputable def insertDesc {α : Type _} (key : α → ℝ) (x : α) : List α → List α
  | [] => [x]
  | y :: ys => if key y < key x then x :: y :: ys else y :: insertDesc key x ys

/-- Stable descending sort by a real-valued key. -/
noncomputable def sortDesc {α : Type _} (key : α → ℝ) : List α → List α
  | [] => []
  | x :: xs => insertDesc key x (sortDesc key xs)

/-- Python's `l[:k]` for an `int` `k` (a negative `k` drops the last `|k|`
elements). -/
def pySlice {α : Type _} (l : List α) (k : ℤ) : List α :=
  if 0 ≤ k then l.take k.toNat else l.take (l.length - (-k).toNat)

/-! ## Chunk store records (`vector_store._load_records`) -/

/-- One record of the JSONL chunk store. `embedding = none` models a
record whose `"embedding"` field is missing or not a list (the
`isinstance(emb, list)` guards). -/
structure ChunkRecord where
  doc_name : Str
  text : Str
  embedding : Option (List ℝ)

/-- A record enriched with a `"score"` entry, as built by
`vector_store.similarity_search`. -/
structure ScoredRecord where
  record : ChunkRecord
  score : ℝ

/-- Python truthiness of an optional string (`if doc_name:` /
`if query_text:`): false for `None` and for the empty string. -/
def optTruthy (o : Option Str) : Bool :=
  match o with
  | none => false
  | some t => !t.isEmpty

/-- `vector_store.similarity_search`: score every record with a list
embedding under the selected similarity, sort descending, return the
top `k`. The store contents (`_load_records()`) are the `records`
parameter. -/
noncomputable def similarity_search (query_embedding : List ℝ) (k : ℤ)
    (doc_name : Option Str) (similarity : String) (query_text : Option Str)
    (records : List ChunkRecord) : List ScoredRecord :=
  if records.isEmpty then []
  else
    let records1 := match doc_name with
      | none => records
      | some d => records.filter (fun r => r.doc_name = d)
    if records1.isEmpty then []
    else
      let results := records1.filterMap (fun r =>
        match r.embedding with
        | none => none
        | some emb =>
          let score :=
            if similarity = "dot" then dotSim query_embedding emb
            else if similarity = "neg_l2" then neg_l2 query_embedding emb
            else if similarity = "neg_l1" then neg_l1 query_embedding emb
            else if similarity = "hybrid" ∧ optTruthy query_text then
              0.7 * cosine_similarity query_embedding emb +
                0.3 * keyword_overlap (query_text.getD []) r.text
            else cosine_similarity query_embedding emb
          some ⟨r, score⟩)
      if results.isEmpty then []
      else pySlice (sortDesc (fun s => s.score) results) k

/-! ## Retrieval Ranker (`qa.get_chunks_for_all_methods`) -/

/-- Look a method's score up in the score dictionary. The final `else`
matches the `"hybrid"` key of the Python dict (only the five method names
are ever used). -/
def SimScores.get (s : SimScores) (m : String) : ℝ :=
  if m = "cosine" then s.cosine
  else if m = "dot" then s.dot
  else if m = "neg_l2" then s.neg_l2
  else if m = "neg_l1" then s.neg_l1
  else s.hybrid

/-- The five similarity method names, in the order the code iterates. -/
def methodNames : List String := ["cosine", "dot", "neg_l2", "neg_l1", "hybrid"]

/-- One entry of `chunks_with_scores`. -/
structure ScoredChunk where
  doc_name : Str
  text : Str
  all_scores : SimScores
  chunk_length : ℕ

/-- One entry of `top_k_by_method[method]`: the chunk spread together
with its 1-based rank and the selected method's score. -/
structure RankedChunk where
  chunk : ScoredChunk
  rank : ℕ
  primary_score : ℝ

/-- The `min` / `max` / `avg` statistics per method. -/
structure MethodStats where
  min : ℝ
  max : ℝ
  avg : ℝ

/-- The records surviving the `if doc_name:` filter of
`get_chunks_for_all_methods`. -/
def filteredRecords (doc_name : Option Str) (records : List ChunkRecord) :
    List ChunkRecord :=
  if optTruthy doc_name then records.filter (fun r => r.doc_name = doc_name.getD [])
  else records

/-- The `chunks_with_scores` loop: skip records whose embedding is not a
list, score the rest against the query with every method. -/
noncomputable def chunksWithScores (query_embedding : List ℝ) (query_text : Str)
    (normalize_vectors : Bool) (records : List ChunkRecord) : List ScoredChunk :=
  records.filterMap (fun r =>
    match r.embedding with
    | none => none
    | some emb => some
      { doc_name := r.doc_name
        text := r.text
        all_scores := calculate_all_similarities query_embedding emb r.text
          query_text normalize_vectors
        chunk_length := r.text.length })

/-- `top_k_by_method[m]`: sort all scored chunks by the method's score
descending, slice to `k`, and annotate with 1-based ranks. -/
noncomputable def top_k_for_method (cws : List ScoredChunk) (k : ℤ) (m : String) :
    List RankedChunk :=
  (pySlice (sortDesc (fun c => c.all_scores.get m) cws) k).enum.map
    (fun p => { chunk := p.2, rank := p.1 + 1, primary_score := p.2.all_scores.get m })

/-- `similarity_stats[m]`: `min` / `max` / `avg` over the entire scored
pool; `none` models Python's `min(scores)` raising `ValueError` on an
empty pool. -/
noncomputable def statsForMethod (cws : List ScoredChunk) (m : String) :
    Option MethodStats :=
  match cws.map (fun c => c.all_scores.get m) with
  | [] => none
  | s :: rest => some
    { min := rest.foldl min s
      max := rest.foldl max s
      avg := (s :: rest).sum / ((s :: rest).length : ℝ) }

/-- The set `{c["text"] for c in top_k_by_method[m]}`. -/
def textsOf (l : List RankedChunk) : List Str := (l.map (fun c => c.chunk.text)).dedup

/-- One entry of the method agreement matrix:
`round((overlap / k) * 100, 1) if k > 0 else 0`, the overlap being the
size of the intersection of the two text sets. -/
def method_agreement_entry (t1 t2 : List Str) (k : ℤ) : ℚ :=
  let overlap := (t1.filter (fun t => t ∈ t2)).length
  if 0 < k then pyRound 1 (((overlap : ℚ) / (k : ℚ)) * 100) else 0

/-- The successful payload of `get_chunks_for_all_methods` (the fields
the claims are about; presentation-only fields are omitted). -/
structure RetrievalOk where
  query_embedding : List ℝ
  all_chunks_with_scores : List ScoredChunk
  top_k_by_method : String → List RankedChunk
  similarity_stats : String → Option MethodStats
  method_agreement : String → String → ℚ
  total_chunks_available : ℕ

/-- A returned value of `get_chunks_for_all_methods`: either an explicit
`{"error": ...}` dict or the full result dict. -/
inductive GCAMOutcome where
  | errObj (msg : Str)
  | ok (r : RetrievalOk)

/-- `qa.get_chunks_for_all_methods`. The embedding client is
externalised: `query_embedding` stands for
`EmbeddingClient(...).embed_query(query_text)`, `records` for
`_load_records(...)`. A thrown Python exception is `Except.error`: with a
non-empty pool in which no record has a list embedding, the
`similarity_stats` loop evaluates `min([])` and raises `ValueError`. -/
noncomputable def get_chunks_for_all_methods (query_text : Str) (k : ℤ)
    (doc_name : Option Str) (normalize_vectors : Bool)
    (query_embedding : List ℝ) (records : List ChunkRecord) :
    Except String GCAMOutcome :=
  if records.isEmpty then .ok (.errObj (str "No documents available"))
  else
    let all_records := filteredRecords doc_name records
    if optTruthy doc_name ∧ all_records.isEmpty then
      .ok (.errObj (str "No chunks for document: " ++ doc_name.getD []))
    else
      let cws := chunksWithScores query_embedding query_text normalize_vectors all_records
      if cws.isEmpty then .error "ValueError: min() arg is an empty sequence"
      else
        let topK := fun m => top_k_for_method cws k m
        .ok (.ok
          { query_embedding := query_embedding
            all_chunks_with_scores := cws
            top_k_by_method := topK
            similarity_stats := fun m => statsForMethod cws m
            method_agreement := fun m1 m2 =>
              method_agreement_entry (textsOf (topK m1)) (textsOf (topK m2)) k
            total_chunks_available := all_records.length })

/-! ## Faithfulness Scorer (`app/faithfulness.py`)

Sentence segmentation (`_split_into_sentences`, NLTK with a regex
fallback) happens before the code the claims are about; the claims are
settled for every possible sentence list, so the segmented answer is a
parameter. The sentence-transformer similarity
`float(cos_sim(sentence_embedding, chunk_embeddings[idx]))` is an oracle
parameter `sem`; the unavailable-model path of the code is the oracle
that is constantly `0`. -/

/-- `faithfulness._extract_matching_phrases` with its default
`min_length = 5`: collect the `n`-word windows (`5 ≤ n < 15`) of the
lowercased sentence that occur verbatim in the lowercased chunk,
skipping case-insensitive duplicates, returning the original-case words
of the sentence for each hit. -/
def extract_matching_phrases (sentence chunk : Str) : List Str :=
  let wordsL := pyWords (pyLower sentence)
  let wordsO := pyWords sentence
  let chunkL := pyLower chunk
  (List.range' 5 (min (wordsL.length + 1) 15 - 5)).foldl (fun quotes n =>
    (List.range (wordsL.length - n + 1)).foldl (fun quotes i =>
      let phrase := joinWords ((wordsL.drop i).take n)
      if isSub phrase chunkL ∧ (pyWords phrase).length ≥ 5 ∧
          phrase ∉ quotes.map pyLower then
        quotes ++ [joinWords ((wordsO.drop i).take n)]
      else quotes) quotes) []

/-- The sentence-level lexical overlap
`len(sentence_tokens & chunk_tokens) / len(sentence_tokens)`, `0.0` when
either token set is empty; the token sets are deduplicated lists. -/
def lexOverlap (sTok cTok : List Str) : ℚ :=
  if sTok = [] ∨ cTok = [] then 0
  else ((sTok.filter (fun t => t ∈ cTok)).length : ℚ) / (sTok.length : ℚ)

/-- `max(0.0, min(1.0, x))`, the clamp applied to the sentence-chunk
semantic similarity. -/
def clamp01 (q : ℚ) : ℚ := max 0 (min 1 q)

/-- The result dict of `_analyze_sentence_support` (supporting chunks are
recorded by index). -/
structure SupportInfo where
  supported : Bool
  supporting_chunks : List ℕ
  confidence : ℚ
  confidence_lexical : ℚ
  confidence_semantic : ℚ
  quotes : List Str

/-- The loop state of `_analyze_sentence_support`. -/
structure SupportAcc where
  sup : List ℕ
  quotes : List Str
  maxLex : ℚ
  maxSem : ℚ

/-- The loop body of `_analyze_sentence_support` for chunk `idx`. -/
def supportStep (sTok : List Str) (sentence : Str) (sem : ℕ → ℚ)
    (a : SupportAcc) (p : ℕ × Str) : SupportAcc :=
  let idx := p.1
  let cTok := (tokenize (pyLower p.2)).dedup
  let lex := lexOverlap sTok cTok
  let semv := clamp01 (sem idx)
  let pq := extract_matching_phrases sentence p.2
  if lex > 3/10 ∨ semv > 1/2 ∨ pq ≠ [] then
    { sup := a.sup ++ [idx], quotes := a.quotes ++ pq
      maxLex := max a.maxLex lex, maxSem := max a.maxSem semv }
  else a

/-- `faithfulness._analyze_sentence_support`: fold the support test over
all chunks, then decide support and confidence from the accumulated
maxima and quotes. `sem idx` is the semantic-similarity oracle for chunk
`idx` (constantly `0` when no sentence-transformer model is available). -/
def analyze_sentence_support (sentence : Str) (chunk_texts : List Str)
    (sem : ℕ → ℚ) : SupportInfo :=
  let sTok := (tokenize (pyLower sentence)).dedup
  let acc := chunk_texts.enum.foldl (supportStep sTok sentence sem) ⟨[], [], 0, 0⟩
  { supported := decide (acc.maxLex > 3/10 ∨ acc.maxSem > 1/2 ∨ acc.quotes ≠ [])
    supporting_chunks := acc.sup
    confidence := pyRound 3 (max acc.maxLex acc.maxSem)
    confidence_lexical := pyRound 3 acc.maxLex
    confidence_semantic := pyRound 3 acc.maxSem
    quotes := acc.quotes.take 2 }

/-- One entry of the report's `sentence_support` list. -/
structure SentenceSupportEntry where
  sentence : Str
  sentence_id : ℕ
  info : SupportInfo

/-- The dict returned by `calculate_faithfulness_metrics` (the fields the
claims are about). -/
structure FaithfulnessReport where
  sentence_support : List SentenceSupportEntry
  extracted_quotes : List Str
  hallucination_risk : ℚ
  evidence_coverage : ℚ
  citation_coverage : ℚ
  total_sentences : ℕ
  supported_sentences : ℕ

/-- The quote-collection loop: append each quote not already present
(first-seen order, exact-match deduplication). -/
def dedupAppend (acc : List Str) (qs : List Str) : List Str :=
  qs.foldl (fun acc q => if q ∈ acc then acc else acc ++ [q]) acc

/-- `faithfulness.calculate_faithfulness_metrics`. `answer_sentences`
stands for `_split_into_sentences(answer)`, `chunk_texts` for
`[c.get("text", "") for c in retrieved_chunks]`, and `sem i j` for the
semantic similarity of sentence `i` and chunk `j`. -/
def calculate_faithfulness_metrics (answer_sentences : List Str)
    (chunk_texts : List Str) (sem : ℕ → ℕ → ℚ) : FaithfulnessReport :=
  let infos := answer_sentences.enum.map (fun p =>
    { sentence := p.2
      sentence_id := p.1
      info := analyze_sentence_support p.2 chunk_texts (sem p.1) :
        SentenceSupportEntry })
  let total_supported := (infos.filter (fun e => e.info.supported)).length
  let quotes := infos.foldl (fun acc e => dedupAppend acc e.info.quotes) []
  let n := answer_sentences.length
  let coverage : ℚ := if n = 0 then 0 else (total_supported : ℚ) / (n : ℚ)
  let citation : ℚ := if n = 0 then 0 else ((total_supported : ℚ) / (n : ℚ)) * 100
  { sentence_support := infos
    extracted_quotes := quotes.take 3
    hallucination_risk := pyRound 3 (1 - coverage)
    evidence_coverage := pyRound 3 coverage
    citation_coverage := pyRound 1 citation
    total_sentences := n
    supported_sentences := total_supported }

/-! ## Batch Evaluation Harness (`app/batch_evaluation.py`)

`_run_single_operation` performs LLM and store I/O, so it is an oracle:
`run_single` returns either a result record (carrying its `status`
field, which the code always sets to `"success"`) or a raised exception
message. The experiment loop and its bookkeeping are modelled
faithfully. -/

/-- One configuration tuple of the batch cartesian product. -/
structure Combo (ω : Type) where
  question_idx : ℕ
  question : Str
  embedding_model : Option String
  similarity_method : String
  top_k : ℤ
  operation : ω

/-- What the `_run_single_operation` oracle returns on success: a status
plus the rest of the result record, abstracted as a payload. -/
structure RunOutcome (σ : Type) where
  status : String
  payload : σ

/-- One entry of the batch `results` list. -/
structure BatchRecord (σ : Type) where
  run_number : ℕ
  total_runs : ℕ
  question_idx : ℕ
  question : Str
  status : String
  error : Option String
  payload : Option σ

/-- The nested loop order of `run_batch_experiment`: questions, then
embedding models, then similarity methods, then top-k values, then
operations. -/
def batchCombos {ω : Type} (questions : List Str)
    (embedding_models : List (Option String)) (similarity_methods : List String)
    (top_k_values : List ℤ) (operations : List ω) : List (Combo ω) :=
  questions.enum.flatMap (fun q =>
    embedding_models.flatMap (fun em =>
      similarity_methods.flatMap (fun sm =>
        top_k_values.flatMap (fun tk =>
          operations.map (fun op =>
            { question_idx := q.1, question := q.2, embedding_model := em
              similarity_method := sm, top_k := tk, operation := op })))))

/-- The `experiment_metadata` fields the claims are about. -/
structure BatchMetadata where
  total_runs : ℕ
  successful_runs : ℕ
  failed_runs : ℕ
  questions_count : ℕ

/-- The dict returned by `run_batch_experiment`. -/
structure BatchReport (σ : Type) where
  metadata : BatchMetadata
  results : List (BatchRecord σ)

/-- `BatchEvaluator.run_batch_experiment`: iterate the cartesian product,
wrap each run so an exception becomes a `status: "failed"` record with an
`error` field, then count successes (`status != "failed"`) and failures
(`status == "failed"`) for the metadata. -/
def run_batch_experiment {ω σ : Type} (questions : List Str)
    (operations : List ω) (similarity_methods : List String)
    (embedding_models : List (Option String)) (top_k_values : List ℤ)
    (run_single : Combo ω → Except String (RunOutcome σ)) : BatchReport σ :=
  let total := questions.length * similarity_methods.length *
    embedding_models.length * top_k_values.length * operations.length
  let combos := batchCombos questions embedding_models similarity_methods
    top_k_values operations
  let results := combos.enum.map (fun p =>
    match run_single p.2 with
    | .ok r =>
      { run_number := p.1 + 1, total_runs := total
        question_idx := p.2.question_idx, question := p.2.question
        status := r.status, error := none, payload := some r.payload :
          BatchRecord σ }
    | .error e =>
      { run_number := p.1 + 1, total_runs := total
        question_idx := p.2.question_idx, question := p.2.question
        status := "failed", error := some e, payload := none })
  { metadata :=
    { total_runs := total
      successful_runs := results.countP (fun r => r.status ≠ "failed")
      failed_runs := results.countP (fun r => r.status = "failed")
      questions_count := questions.length }
    results := results }

/-! ## Critique Loop Controller -/

/-- One critique round of the session. -/
structure CritiqueRoundM where
  round : ℕ
  answer : Str
  improved_prompt : Str

/-- A critique session: final answer plus the ordered round history. -/
structure CritiqueSessionM where
  answer : Str
  rounds : List CritiqueRoundM

/-- The Draft → Critiqued → (Improving → Draft) | Terminal loop: emit the
round for the current prompt, and re-draft while `self_correct` holds and
`max_rounds` has not been reached. The `fuel` argument makes the
recursion structural; it is instantiated with `max_rounds`. -/
def critiqueLoop (self_correct : Bool) (max_rounds : ℕ)
    (draft improve : ℕ → Str) : ℕ → ℕ → List CritiqueRoundM
  | 0, _ => []
  | fuel + 1, n =>
    let r : CritiqueRoundM := { round := n, answer := draft n, improved_prompt := improve n }
    if self_correct ∧ n < max_rounds then
      r :: critiqueLoop self_correct max_rounds draft improve fuel (n + 1)
    else [r]

/-- Modelled from the spec: `run_critique` itself lives in
`app/critique.py`, which is not under `src/` (only its callers in
`qa.py` / `batch_evaluation.py` and the `CritiqueResponse` schema are).
Per §4.5 and `batch_evaluation._run_single_operation`
(`max_rounds = 2 if self_correct else 1`): round 1 drafts an answer;
while `self_correct` is enabled and the round count has not reached
`max_rounds`, drafting is re-run on the improved prompt, producing the
next round; the session's answer is the last round's draft. The
generation calls are the `draft` / `improve` oracles. -/
def run_critique (self_correct : Bool) (draft improve : ℕ → Str) :
    CritiqueSessionM :=
  let max_rounds := if self_correct then 2 else 1
  let rounds := critiqueLoop self_correct max_rounds draft improve max_rounds 1
  { answer := ((rounds.getLast?).map (fun r => r.answer)).getD []
    rounds := rounds }

/-! ## Definitions written from the spec's words (for refutations)

Each of the following follows the claim text, not the source; it is
compared against the source-derived definition above. -/

/-- The hybrid score as the spec words it: the Jaccard term tokenizes by
lowercasing and splitting on non-word characters (the source splits on
whitespace only). -/
noncomputable def hybridSpec (queryVector chunkVector : List ℝ)
    (queryText chunkText : Str) : ℝ :=
  let q := (tokenize (pyLower queryText)).dedup
  let d := (tokenize (pyLower chunkText)).dedup
  let j : ℝ :=
    if q = [] ∨ d = [] then 0
    else ((q.filter (fun t => t ∈ d)).length : ℝ) /
      ((q.length + (d.filter (fun t => t ∉ q)).length : ℕ) : ℝ)
  0.7 * cosine_similarity queryVector chunkVector + 0.3 * j

/-- The sentence confidence as the claim words it:
`max(lexical_overlap, semantic_similarity)` across **all** chunks (the
source maximises only over chunks that pass the support threshold),
rounded as the code rounds its returned confidence. -/
def confidenceSpecAllChunks (sentence : Str) (chunk_texts : List Str)
    (sem : ℕ → ℚ) : ℚ :=
  let sTok := (tokenize (pyLower sentence)).dedup
  let vals := chunk_texts.enum.map (fun p =>
    max (lexOverlap sTok ((tokenize (pyLower p.2)).dedup)) (clamp01 (sem p.1)))
  pyRound 3 (vals.foldl max 0)

/-- The support-threshold test of `_analyze_sentence_support` for the
indexed chunk `p`: lexical overlap above 0.3, clamped semantic similarity
above 0.5, or at least one matching phrase. -/
def supportCond (sentence : Str) (sem : ℕ → ℚ) (p : ℕ × Str) : Prop :=
  lexOverlap ((tokenize (pyLower sentence)).dedup)
    ((tokenize (pyLower p.2)).dedup) > 3/10 ∨
  clamp01 (sem p.1) > 1/2 ∨
  extract_matching_phrases sentence p.2 ≠ []

instance (sentence : Str) (sem : ℕ → ℚ) (p : ℕ × Str) :
    Decidable (supportCond sentence sem p) := by
  unfold supportCond
  exact inferInstance

/-- Project a method-agreement entry out of a `get_chunks_for_all_methods`
outcome (`none` for error dicts and raised exceptions). -/
def agreementOf (e : Except String GCAMOutcome) (m1 m2 : String) : Option ℚ :=
  match e with
  | .ok (.ok r) => some (r.method_agreement m1 m2)
  | _ => none

/-! ## Helper lemmas -/
theorem rndHalfEven_intCast (z : ℤ) : rndHalfEven (z : ℚ) = z := by
  rw [rndHalfEven, if_neg, round_intCast]
  rw [Int.fract_intCast]
  norm_num

/-- Round-half-to-even of `c - x` complements that of `x` whenever the
integer `c` is even. -/
theorem rndHalfEven_add_rndHalfEven_sub (c : ℤ) (hc : 2 ∣ c) (x : ℚ) :
    rndHalfEven x + rndHalfEven ((c : ℚ) - x) = c := by
  have hfx0 := Int.fract_nonneg x
  have hfx1 := Int.fract_lt_one x
  have hxval : (⌊x⌋ : ℚ) + Int.fract x = x := Int.floor_add_fract x
  rcases eq_or_ne (Int.fract x) (1/2) with hf | hf
  · have hsub : (c : ℚ) - x = ((c - ⌊x⌋ - 1 : ℤ) : ℚ) + 1/2 := by
      push_cast
      linarith [hxval, hf]
    have hf2 : Int.fract ((c : ℚ) - x) = 1/2 := by
      rw [hsub, Int.fract_int_add, Int.fract_eq_self.mpr (by norm_num)]
    have hfl2 : ⌊(c : ℚ) - x⌋ = c - ⌊x⌋ - 1 := by
      rw [hsub, Int.floor_int_add]
      norm_num
    rw [rndHalfEven, rndHalfEven, if_pos hf, if_pos hf2, hfl2]
    by_cases h2 : (2:ℤ) ∣ ⌊x⌋ <;> by_cases h3 : (2:ℤ) ∣ (c - ⌊x⌋ - 1) <;>
      simp only [h2, h3, if_true, if_false] <;> omega
  · rcases eq_or_ne (Int.fract x) 0 with h0 | h0
    · have hx : x = ((⌊x⌋ : ℤ) : ℚ) := by
        linarith [hxval, h0]
      have hsub : (c : ℚ) - x = ((c - ⌊x⌋ : ℤ) : ℚ) := by
        push_cast
        linarith [hxval, h0]
      rw [hsub, rndHalfEven_intCast]
      nth_rewrite 1 [hx]
      rw [rndHalfEven_intCast]
      ring
    · have hpos : (0:ℚ) < Int.fract x := lt_of_le_of_ne hfx0 (Ne.symm h0)
      have hf2 : Int.fract ((c : ℚ) - x) ≠ 1/2 := by
        have hrw : (c : ℚ) - x = (c : ℚ) + (-x) := by ring
        rw [hrw, Int.fract_int_add, Int.fract_neg h0]
        intro h
        exact hf (by linarith [h])
      rw [rndHalfEven, rndHalfEven, if_neg hf, if_neg hf2, round_eq, round_eq]
      rcases lt_or_gt_of_ne hf with hlt | hgt
      · have hr1 : ⌊x + 1/2⌋ = ⌊x⌋ := by
          rw [show x + 1/2 = (⌊x⌋ : ℚ) + (Int.fract x + 1/2) from by linarith [hxval],
            Int.floor_int_add]
          have : ⌊Int.fract x + 1/2⌋ = 0 := by
            rw [Int.floor_eq_zero_iff, Set.mem_Ico]
            constructor <;> linarith
          omega
        have hr2 : ⌊(c : ℚ) - x + 1/2⌋ = c - ⌊x⌋ := by
          rw [show (c : ℚ) - x + 1/2 = ((c - ⌊x⌋ : ℤ) : ℚ) + (1/2 - Int.fract x) from by
            push_cast; linarith [hxval], Int.floor_int_add]
          have : ⌊(1:ℚ)/2 - Int.fract x⌋ = 0 := by
            rw [Int.floor_eq_zero_iff, Set.mem_Ico]
            constructor <;> linarith
          omega
        rw [hr1, hr2]; ring
      · have hr1 : ⌊x + 1/2⌋ = ⌊x⌋ + 1 := by
          rw [show x + 1/2 = (⌊x⌋ : ℚ) + (Int.fract x + 1/2) from by linarith [hxval],
            Int.floor_int_add]
          have : ⌊Int.fract x + 1/2⌋ = 1 := by
            rw [Int.floor_eq_iff]
            constructor <;> push_cast <;> linarith
          omega
        have hr2 : ⌊(c : ℚ) - x + 1/2⌋ = c - ⌊x⌋ - 1 := by
          rw [show (c : ℚ) - x + 1/2 = ((c - ⌊x⌋ - 1 : ℤ) : ℚ) + (3/2 - Int.fract x) from by
            push_cast; linarith [hxval], Int.floor_int_add]
          have : ⌊(3:ℚ)/2 - Int.fract x⌋ = 0 := by
            rw [Int.floor_eq_zero_iff, Set.mem_Ico]
            constructor <;> linarith
          omega
        rw [hr1, hr2]; ring

/-- The two 3-decimal roundings of complementary quantities sum to one. -/
theorem pyRound_three_complement (x : ℚ) :
    pyRound 3 (1 - x) + pyRound 3 x = 1 := by
  have h := rndHalfEven_add_rndHalfEven_sub 1000 (by norm_num) (10 ^ 3 * x)
  have heq : ((1000 : ℤ) : ℚ) - 10 ^ 3 * x = 10 ^ 3 * (1 - x) := by push_cast; ring
  rw [heq] at h
  unfold pyRound
  have : (rndHalfEven (10 ^ 3 * (1 - x)) : ℚ) + (rndHalfEven (10 ^ 3 * x) : ℚ) = 1000 := by
    have := congrArg (fun z : ℤ => (z : ℚ)) (by linarith [h] : rndHalfEven (10 ^ 3 * x) + rndHalfEven (10 ^ 3 * (1 - x)) = 1000)
    push_cast at this
    linarith [this]
  rw [div_add_div_same]
  rw [show ((10 : ℚ) ^ 3) = 1000 by norm_num] at *
  linarith [this, mul_comm (1000 : ℚ) x]

theorem listDot_eq_sum_range (a b : List ℝ) :
    listDot a b = ∑ i ∈ Finset.range (min a.length b.length),
      a.getD i 0 * b.getD i 0 := by
  induction a generalizing b with
  | nil => simp [listDot]
  | cons x a ih =>
    cases b with
    | nil => simp [listDot]
    | cons y b =>
      have hmin : min (x :: a).length (y :: b).length = min a.length b.length + 1 := by
        simp [Nat.succ_min_succ]
      rw [hmin, Finset.sum_range_succ']
      have : ∀ k, (x :: a).getD (k + 1) 0 * (y :: b).getD (k + 1) 0
          = a.getD k 0 * b.getD k 0 := by intro k; simp
      simp only [this]
      rw [← ih b]
      simp [listDot]
      ring

theorem sumSq_nonneg (v : List ℝ) : 0 ≤ sumSq v := by
  rw [sumSq, listDot_eq_sum_range]
  exact Finset.sum_nonneg (fun i _ => mul_self_nonneg _)

theorem l2norm_nonneg (v : List ℝ) : 0 ≤ l2norm v := Real.sqrt_nonneg _

theorem sq_l2norm (v : List ℝ) : l2norm v ^ 2 = sumSq v :=
  Real.sq_sqrt (sumSq_nonneg v)

/-- Cauchy–Schwarz for the list dot product of same-length vectors. -/
theorem listDot_sq_le (a b : List ℝ) (h : a.length = b.length) :
    listDot a b ^ 2 ≤ sumSq a * sumSq b := by
  rw [listDot_eq_sum_range, sumSq, sumSq, listDot_eq_sum_range a a,
    listDot_eq_sum_range b b, h, min_self]
  calc (∑ i ∈ Finset.range b.length, a.getD i 0 * b.getD i 0) ^ 2
      ≤ (∑ i ∈ Finset.range b.length, a.getD i 0 ^ 2) *
        (∑ i ∈ Finset.range b.length, b.getD i 0 ^ 2) :=
        Finset.sum_mul_sq_le_sq_mul_sq _ _ _
    _ = (∑ i ∈ Finset.range b.length, a.getD i 0 * a.getD i 0) *
        (∑ i ∈ Finset.range b.length, b.getD i 0 * b.getD i 0) := by
        simp [pow_two]

theorem length_flatMap_const {α β : Type _} (l : List α) (f : α → List β) (c : ℕ)
    (h : ∀ a, (f a).length = c) : (l.flatMap f).length = l.length * c := by
  induction l with
  | nil => simp
  | cons x xs ih => simp [List.flatMap_cons, h, ih, Nat.succ_mul, Nat.add_comm]

theorem batchCombos_length {ω : Type} (questions : List Str)
    (embedding_models : List (Option String)) (similarity_methods : List String)
    (top_k_values : List ℤ) (operations : List ω) :
    (batchCombos questions embedding_models similarity_methods top_k_values
      operations).length =
    questions.length * similarity_methods.length * embedding_models.length *
      top_k_values.length * operations.length := by
  unfold batchCombos
  rw [length_flatMap_const _ _
    (embedding_models.length * (similarity_methods.length *
      (top_k_values.length * operations.length)))]
  · rw [List.enum_length]
    ring
  · intro a
    rw [length_flatMap_const _ _
      (similarity_methods.length * (top_k_values.length * operations.length))]
    · intro b
      rw [length_flatMap_const _ _ (top_k_values.length * operations.length)]
      intro c'
      rw [length_flatMap_const _ _ operations.length]
      intro d
      exact List.length_map _ _

/-! ## C1 — faithfulness risk/coverage complement -/

/-- C1: for every segmented answer, chunk list and semantic-similarity
oracle, the report of `calculate_faithfulness_metrics` satisfies
`hallucination_risk + evidence_coverage = 1`, where `evidence_coverage`
is the 3-decimal rounding of `supported_count / total_sentences` (taken
as `0` when there are no sentences) and `hallucination_risk` the
independent 3-decimal rounding of its complement. -/
theorem faithfulness_risk_coverage_complement (answer_sentences chunk_texts : List Str)
    (sem : ℕ → ℕ → ℚ) :
    (calculate_faithfulness_metrics answer_sentences chunk_texts sem).hallucination_risk +
      (calculate_faithfulness_metrics answer_sentences chunk_texts sem).evidence_coverage = 1 ∧
    (calculate_faithfulness_metrics answer_sentences chunk_texts sem).evidence_coverage =
      pyRound 3 (if answer_sentences.length = 0 then 0 else
        ((calculate_faithfulness_metrics answer_sentences chunk_texts sem).supported_sentences : ℚ) /
          (answer_sentences.length : ℚ)) ∧
    (calculate_faithfulness_metrics answer_sentences chunk_texts sem).hallucination_risk =
      pyRound 3 (1 - (if answer_sentences.length = 0 then 0 else
        ((calculate_faithfulness_metrics answer_sentences chunk_texts sem).supported_sentences : ℚ) /
          (answer_sentences.length : ℚ))) := by
  refine ⟨?_, rfl, rfl⟩
  exact pyRound_three_complement _

/-! ## C9 — critique session round count -/

/-- C9: every critique session has one or two rounds, never more than
`max_rounds` (2 when `self_correct` is on, 1 otherwise), and a second
round exists only when `self_correct` is true. -/
theorem run_critique_rounds_spec (self_correct : Bool) (draft improve : ℕ → Str) :
    ((run_critique self_correct draft improve).rounds.length = 1 ∨
      (run_critique self_correct draft improve).rounds.length = 2) ∧
    (run_critique self_correct draft improve).rounds.length ≤
      (if self_correct then 2 else 1) ∧
    ((run_critique self_correct draft improve).rounds.length = 2 →
      self_correct = true) := by
  cases self_correct <;> simp [run_critique, critiqueLoop]

/-- Witness for C9 at `self_correct = true` with constant oracles; the
round count evaluates to 2, discharging the hypothesis of the third
conjunct. -/
theorem run_critique_rounds_spec_witness :
    ((run_critique true (fun _ => str "a") (fun _ => str "p")).rounds.length = 1 ∨
      (run_critique true (fun _ => str "a") (fun _ => str "p")).rounds.length = 2) ∧
    (run_critique true (fun _ => str "a") (fun _ => str "p")).rounds.length ≤
      (if true then 2 else 1) ∧
    true = true :=
  ⟨(run_critique_rounds_spec true _ _).1, (run_critique_rounds_spec true _ _).2.1,
    (run_critique_rounds_spec true (fun _ => str "a") (fun _ => str "p")).2.2 (by decide)⟩

/-! ## C7 — batch experiment run count and failure isolation -/

/-- C7: `run_batch_experiment` produces exactly
`|questions| x |methods| x |embedding models| x |top-k values| x |operations|`
run records; the metadata satisfies
`total_runs = successful_runs + failed_runs`; and a run whose execution
raises becomes a `status = "failed"` record carrying the error message at
its position in the batch, instead of aborting the batch. -/
theorem run_batch_experiment_spec {ω σ : Type} (questions : List Str)
    (operations : List ω) (similarity_methods : List String)
    (embedding_models : List (Option String)) (top_k_values : List ℤ)
    (run_single : Combo ω → Except String (RunOutcome σ)) :
    (run_batch_experiment questions operations similarity_methods
      embedding_models top_k_values run_single).results.length =
      questions.length * similarity_methods.length * embedding_models.length *
        top_k_values.length * operations.length ∧
    (run_batch_experiment questions operations similarity_methods
      embedding_models top_k_values run_single).metadata.total_runs =
      (run_batch_experiment questions operations similarity_methods
        embedding_models top_k_values run_single).metadata.successful_runs +
      (run_batch_experiment questions operations similarity_methods
        embedding_models top_k_values run_single).metadata.failed_runs ∧
    (∀ i c e, (batchCombos questions embedding_models similarity_methods
        top_k_values operations)[i]? = some c →
      run_single c = .error e →
      (run_batch_experiment questions operations similarity_methods
        embedding_models top_k_values run_single).results[i]? = some
        ({ run_number := i + 1
           total_runs := questions.length * similarity_methods.length *
             embedding_models.length * top_k_values.length * operations.length
           question_idx := c.question_idx, question := c.question
           status := "failed", error := some e, payload := none } : BatchRecord σ)) := by
  have hlen : (run_batch_experiment questions operations similarity_methods
      embedding_models top_k_values run_single).results.length =
      questions.length * similarity_methods.length * embedding_models.length *
        top_k_values.length * operations.length := by
    simp only [run_batch_experiment]
    rw [List.length_map, List.enum_length, batchCombos_length]
  refine ⟨hlen, ?_, ?_⟩
  · have hc := List.length_eq_countP_add_countP
      (fun r : BatchRecord σ => r.status = "failed")
      (run_batch_experiment questions operations similarity_methods
        embedding_models top_k_values run_single).results
    have hpq : ∀ r : BatchRecord σ,
        (decide ¬(decide (r.status = "failed") = true)) =
          decide (r.status ≠ "failed") := by
      intro r
      by_cases h : r.status = "failed" <;> simp [h]
    have hcongr : ((run_batch_experiment questions operations similarity_methods
        embedding_models top_k_values run_single).results.countP
          (fun a => decide ¬(decide (a.status = "failed") = true))) =
        ((run_batch_experiment questions operations similarity_methods
          embedding_models top_k_values run_single).results.countP
            (fun r => r.status ≠ "failed")) :=
      List.countP_congr (fun a _ => by rw [hpq a])
    have hS : (run_batch_experiment questions operations similarity_methods
        embedding_models top_k_values run_single).metadata.successful_runs =
        ((run_batch_experiment questions operations similarity_methods
          embedding_models top_k_values run_single).results.countP
            (fun r => r.status ≠ "failed")) := rfl
    have hF : (run_batch_experiment questions operations similarity_methods
        embedding_models top_k_values run_single).metadata.failed_runs =
        ((run_batch_experiment questions operations similarity_methods
          embedding_models top_k_values run_single).results.countP
            (fun r => decide (r.status = "failed"))) := rfl
    have hT : (run_batch_experiment questions operations similarity_methods
        embedding_models top_k_values run_single).metadata.total_runs =
        questions.length * similarity_methods.length * embedding_models.length *
          top_k_values.length * operations.length := rfl
    rw [hlen] at hc
    rw [hS, hF, hT]
    omega
  · intro i c e hcombo hrun
    simp only [run_batch_experiment]
    rw [List.getElem?_map, List.getElem?_enum, hcombo]
    simp only [Option.map_some', hrun]

/-- Witness for C7: a two-question batch with one operation in which the
second run raises; its record is `status = "failed"` with the raised
message, and the counts work out. -/
theorem run_batch_experiment_spec_witness :
    (run_batch_experiment [str "q1", str "q2"] [()] ["cosine"] [none] [5]
      (fun c => if c.question_idx = 0 then .ok ⟨"success", ()⟩
        else .error "boom")).results.length = 2 * 1 * 1 * 1 * 1 ∧
    (run_batch_experiment [str "q1", str "q2"] [()] ["cosine"] [none] [5]
      (fun c => if c.question_idx = 0 then .ok ⟨"success", ()⟩
        else .error "boom")).results[1]? = some
      { run_number := 2, total_runs := 2 * 1 * 1 * 1 * 1
        question_idx := 1, question := str "q2"
        status := "failed", error := some "boom", payload := (none : Option Unit) } := by
  constructor
  · exact (run_batch_experiment_spec [str "q1", str "q2"] [()] ["cosine"] [none] [5] _).1
  · exact (run_batch_experiment_spec [str "q1", str "q2"] [()] ["cosine"] [none] [5]
      (fun c => if c.question_idx = 0 then .ok ⟨"success", ()⟩ else .error "boom")).2.2
      1 { question_idx := 1, question := str "q2", embedding_model := none
          similarity_method := "cosine", top_k := 5, operation := () } "boom"
      (by rfl) (by rfl)

/-! ## C5 — cosine similarity range and sentinel cases -/

/-- C5: for same-dimension vectors with non-zero norms the cosine score
lies in `[-1, 1]`; on dimension mismatch, and when either norm is zero,
it is exactly `0.0`. -/
theorem cosine_similarity_spec (a b : List ℝ) :
    (a.length = b.length → l2norm a ≠ 0 → l2norm b ≠ 0 →
      -1 ≤ cosine_similarity a b ∧ cosine_similarity a b ≤ 1) ∧
    (a.length ≠ b.length → cosine_similarity a b = 0) ∧
    (l2norm a = 0 ∨ l2norm b = 0 → cosine_similarity a b = 0) := by
  refine ⟨?_, ?_, ?_⟩
  · intro h ha hb
    have hna : 0 < l2norm a := (l2norm_nonneg a).lt_of_ne (Ne.symm ha)
    have hnb : 0 < l2norm b := (l2norm_nonneg b).lt_of_ne (Ne.symm hb)
    have hpos := mul_pos hna hnb
    have hcs : listDot a b ^ 2 ≤ (l2norm a * l2norm b) ^ 2 := by
      rw [mul_pow, sq_l2norm, sq_l2norm]
      exact listDot_sq_le a b h
    have hub : listDot a b ≤ l2norm a * l2norm b := by
      nlinarith [hcs, hpos]
    have hlb : -(l2norm a * l2norm b) ≤ listDot a b := by
      nlinarith [hcs, hpos]
    rw [cosine_similarity, if_neg (by simp [h]), if_neg (by push_neg; exact ⟨ha, hb⟩)]
    constructor
    · rw [le_div_iff₀ hpos]
      linarith
    · rw [div_le_one hpos]
      exact hub
  · intro h
    rw [cosine_similarity, if_pos h]
  · intro h
    rw [cosine_similarity]
    by_cases hlen : a.length ≠ b.length
    · rw [if_pos hlen]
    · rw [if_neg hlen, if_pos h]

/-- Witness for C5 at the vectors `[1]`, `[1]` (bounds), `[1]` vs `[1,0]`
(dimension mismatch) and `[0]` vs `[1]` (zero norm). -/
theorem cosine_similarity_spec_witness :
    (-1 ≤ cosine_similarity [1] [1] ∧ cosine_similarity [1] [1] ≤ 1) ∧
    cosine_similarity [1] [1, 0] = 0 ∧
    cosine_similarity [0] [1] = 0 := by
  have h1 : l2norm [(1:ℝ)] = 1 := by
    simp [l2norm, sumSq, listDot]
  have h0 : l2norm [(0:ℝ)] = 0 := by
    simp [l2norm, sumSq, listDot]
  exact ⟨(cosine_similarity_spec [1] [1]).1 rfl (by rw [h1]; norm_num)
      (by rw [h1]; norm_num),
    (cosine_similarity_spec [1] [1, 0]).2.1 (by simp),
    (cosine_similarity_spec [0] [1]).2.2 (Or.inl h0)⟩


/-! ## C8 — extracted quote shape and caps -/

theorem mem_foldl_accum {ι β : Type _} (l : List ι) (f : List β → ι → List β)
    (P : ι → β → Prop)
    (hf : ∀ acc i, i ∈ l → ∀ q ∈ f acc i, q ∈ acc ∨ P i q) :
    ∀ acc q, q ∈ l.foldl f acc → q ∈ acc ∨ ∃ i ∈ l, P i q := by
  induction l with
  | nil =>
    intro acc q h
    exact Or.inl h
  | cons x xs ih =>
    intro acc q h
    rcases ih (fun acc i hi => hf acc i (List.mem_cons_of_mem _ hi)) (f acc x) q h with
      h' | ⟨i, hi, hp⟩
    · rcases hf acc x (List.mem_cons_self x xs) q h' with h'' | hp
      · exact Or.inl h''
      · exact Or.inr ⟨x, List.mem_cons_self x xs, hp⟩
    · exact Or.inr ⟨i, List.mem_cons_of_mem _ hi, hp⟩

theorem extract_matching_phrases_mem (sentence chunk : Str) :
    ∀ q ∈ extract_matching_phrases sentence chunk,
      ∃ n i, 5 ≤ n ∧ n ≤ 14 ∧
        i + n ≤ (pyWords (pyLower sentence)).length ∧
        q = joinWords (((pyWords sentence).drop i).take n) ∧
        isSub (joinWords (((pyWords (pyLower sentence)).drop i).take n))
          (pyLower chunk) = true ∧
        5 ≤ (pyWords (joinWords (((pyWords (pyLower sentence)).drop i).take n))).length := by
  intro q hq
  simp only [extract_matching_phrases] at hq
  have houter := mem_foldl_accum
    (List.range' 5 (min ((pyWords (pyLower sentence)).length + 1) 15 - 5)) _
    (fun n q => n ≤ 14 ∧ ∃ i, i + n ≤ (pyWords (pyLower sentence)).length ∧
      q = joinWords (((pyWords sentence).drop i).take n) ∧
      isSub (joinWords (((pyWords (pyLower sentence)).drop i).take n))
        (pyLower chunk) = true ∧
      5 ≤ (pyWords (joinWords (((pyWords (pyLower sentence)).drop i).take n))).length)
    ?_ [] q hq
  · rcases houter with h | ⟨n, hn, h14, i, hin, hqeq, hsub, hlen5⟩
    · simp at h
    · rw [List.mem_range'_1] at hn
      exact ⟨n, i, hn.1, h14, hin, hqeq, hsub, hlen5⟩
  · intro acc n hn q' hq'
    rw [List.mem_range'_1] at hn
    have hnL : n ≤ (pyWords (pyLower sentence)).length ∧ n ≤ 14 := by omega
    have hinner := mem_foldl_accum
      (List.range ((pyWords (pyLower sentence)).length - n + 1)) _
      (fun i q => i + n ≤ (pyWords (pyLower sentence)).length ∧
        q = joinWords (((pyWords sentence).drop i).take n) ∧
        isSub (joinWords (((pyWords (pyLower sentence)).drop i).take n))
          (pyLower chunk) = true ∧
        5 ≤ (pyWords (joinWords (((pyWords (pyLower sentence)).drop i).take n))).length)
      ?_ acc q' hq'
    · rcases hinner with h | ⟨i, _, hiP⟩
      · exact Or.inl h
      · exact Or.inr ⟨hnL.2, i, hiP⟩
    · intro acc' i hi q'' hq''
      rw [List.mem_range] at hi
      by_cases hC : isSub (joinWords (((pyWords (pyLower sentence)).drop i).take n))
          (pyLower chunk) = true ∧
          (pyWords (joinWords (((pyWords (pyLower sentence)).drop i).take n))).length ≥ 5 ∧
          joinWords (((pyWords (pyLower sentence)).drop i).take n) ∉ acc'.map pyLower
      · rw [if_pos hC] at hq''
        rcases List.mem_append.mp hq'' with h | h
        · exact Or.inl h
        · refine Or.inr ⟨by omega, List.mem_singleton.mp h, hC.1, hC.2.1⟩
      · rw [if_neg hC] at hq''
        exact Or.inl hq''

theorem dedupAppend_sublist (qs acc : List Str) : (dedupAppend acc qs).Sublist (acc ++ qs) := by
  induction qs generalizing acc with
  | nil => simp [dedupAppend]
  | cons q qs ih =>
    simp only [dedupAppend, List.foldl_cons]
    by_cases h : q ∈ acc
    · rw [if_pos h]
      refine (ih acc).trans ?_
      exact List.Sublist.append_left (List.sublist_cons_self q qs) acc
    · rw [if_neg h]
      have := ih (acc ++ [q])
      simpa [List.append_assoc] using this

theorem dedupAppend_nodup (qs acc : List Str) (h : acc.Nodup) :
    (dedupAppend acc qs).Nodup := by
  induction qs generalizing acc with
  | nil => exact h
  | cons q qs ih =>
    simp only [dedupAppend, List.foldl_cons]
    by_cases hq : q ∈ acc
    · rw [if_pos hq]
      exact ih acc h
    · rw [if_neg hq]
      exact ih _ (List.Nodup.append h (List.nodup_singleton q)
        (List.disjoint_singleton.mpr hq))

theorem foldl_dedupAppend_sublist (L : List (List Str)) (acc : List Str) :
    (L.foldl dedupAppend acc).Sublist (acc ++ L.flatten) := by
  induction L generalizing acc with
  | nil => simp
  | cons x L ih =>
    rw [List.foldl_cons, List.flatten_cons]
    refine (ih (dedupAppend acc x)).trans ?_
    have h1 := (dedupAppend_sublist x acc).append_right L.flatten
    rw [List.append_assoc] at h1
    exact h1

theorem foldl_dedupAppend_nodup (L : List (List Str)) (acc : List Str)
    (h : acc.Nodup) : (L.foldl dedupAppend acc).Nodup := by
  induction L generalizing acc with
  | nil => exact h
  | cons x L ih => exact ih _ (dedupAppend_nodup x acc h)

theorem char_big_not_ws (d : Char) (hd : 64 < d.toNat) : d.isWhitespace = false := by
  simp only [Char.isWhitespace, Bool.or_eq_false_iff, decide_eq_false_iff_not]
  refine ⟨⟨⟨?_, ?_⟩, ?_⟩, ?_⟩ <;> rintro rfl <;> exact absurd hd (by decide)

theorem toLower_isWhitespace (c : Char) :
    (Char.toLower c).isWhitespace = c.isWhitespace := by
  simp only [Char.toLower]
  by_cases h : c.toNat ≥ 65 ∧ c.toNat ≤ 90
  · rw [if_pos h]
    have hv : (c.toNat + 32).isValidChar := Or.inl (by omega)
    have hval : (Char.ofNat (c.toNat + 32)).toNat = c.toNat + 32 := by
      rw [Char.ofNat, dif_pos hv]; rfl
    rw [char_big_not_ws c (by omega), char_big_not_ws _ (by omega)]
  · rw [if_neg h]

theorem splitWS_ne_nil (s : Str) : splitWS s ≠ [] := by
  induction s with
  | nil => simp [splitWS]
  | cons c cs ih =>
    cases h : splitWS cs with
    | nil => exact absurd h ih
    | cons w ws =>
      rw [splitWS, h]
      show ¬(if c.isWhitespace then [] :: w :: ws else (c :: w) :: ws) = []
      split <;> simp

theorem splitWS_cons (c : Char) (cs : Str) :
    splitWS (c :: cs) =
      if c.isWhitespace then [] :: splitWS cs
      else (c :: (splitWS cs).headI) :: (splitWS cs).tail := by
  cases h : splitWS cs with
  | nil => exact absurd h (splitWS_ne_nil cs)
  | cons w ws =>
    rw [splitWS, h]
    show (if c.isWhitespace then [] :: w :: ws else (c :: w) :: ws) = _
    by_cases hc : c.isWhitespace <;> simp [hc]

theorem splitWS_no_ws (s : Str) : ∀ w ∈ splitWS s, ∀ c ∈ w, ¬c.isWhitespace := by
  induction s with
  | nil => simp [splitWS]
  | cons c cs ih =>
    rw [splitWS_cons]
    by_cases hc : c.isWhitespace
    · rw [if_pos hc]
      intro w' hw'
      rcases List.mem_cons.mp hw' with rfl | hw'
      · simp
      · exact ih w' hw'
    · rw [if_neg hc]
      intro w' hw'
      rcases List.mem_cons.mp hw' with rfl | hw'
      · intro d hd
        rcases List.mem_cons.mp hd with rfl | hd
        · exact hc
        · refine ih (splitWS cs).headI ?_ d hd
          cases h : splitWS cs with
          | nil => exact absurd h (splitWS_ne_nil cs)
          | cons w ws => simp [h]
      · exact ih w' (List.mem_of_mem_tail hw')

theorem splitWS_ws_cons (c : Char) (hc : c.isWhitespace) (s : Str) :
    splitWS (c :: s) = [] :: splitWS s := by
  rw [splitWS_cons, if_pos hc]

theorem splitWS_append (w : Str) (hw : ∀ c ∈ w, ¬c.isWhitespace) (s : Str) :
    splitWS (w ++ s) = (w ++ (splitWS s).headI) :: (splitWS s).tail := by
  induction w with
  | nil =>
    simp only [List.nil_append]
    cases h : splitWS s with
    | nil => exact absurd h (splitWS_ne_nil s)
    | cons x xs => simp
  | cons c cw ih =>
    have hc : ¬c.isWhitespace := hw c (List.mem_cons_self _ _)
    have ih' := ih (fun d hd => hw d (List.mem_cons_of_mem c hd))
    rw [List.cons_append, splitWS_cons, if_neg hc, ih']
    simp

theorem pyWords_joinWords (ws : List Str)
    (h : ∀ w ∈ ws, w ≠ [] ∧ ∀ c ∈ w, ¬c.isWhitespace) :
    pyWords (joinWords ws) = ws := by
  induction ws with
  | nil => rfl
  | cons w ws ih =>
    obtain ⟨hne, hnws⟩ := h w (List.mem_cons_self _ _)
    cases ws with
    | nil =>
      have h1 : joinWords [w] = w := by
        simp [joinWords, List.intercalate]
      rw [h1]
      have hsw : splitWS w = [w] := by
        have := splitWS_append w hnws []
        simpa [splitWS] using this
      simp [pyWords, hsw, hne]
    | cons w' ws' =>
      have hrest := ih (fun x hx => h x (List.mem_cons_of_mem w hx))
      have hJ : joinWords (w :: w' :: ws') = w ++ (' ' :: joinWords (w' :: ws')) := by
        simp [joinWords, List.intercalate, List.intersperse]
      rw [hJ, pyWords, splitWS_append w hnws,
        splitWS_ws_cons ' ' (by decide) (joinWords (w' :: ws'))]
      simp only [List.headI, List.tail, List.append_nil]
      rw [List.filter_cons, if_pos (by simpa using hne)]
      exact congrArg (w :: ·) hrest

theorem splitWS_map_toLower (s : Str) :
    splitWS (s.map Char.toLower) = (splitWS s).map (List.map Char.toLower) := by
  induction s with
  | nil => rfl
  | cons c cs ih =>
    rw [List.map_cons, splitWS_cons, splitWS_cons, ih, toLower_isWhitespace]
    by_cases hc : c.isWhitespace
    · rw [if_pos hc, if_pos hc]
      simp
    · rw [if_neg hc, if_neg hc]
      cases h : splitWS cs with
      | nil => exact absurd h (splitWS_ne_nil cs)
      | cons w ws => simp [h]

theorem pyWords_map_toLower (s : Str) :
    pyWords (s.map Char.toLower) = (pyWords s).map (List.map Char.toLower) := by
  simp only [pyWords, splitWS_map_toLower]
  rw [List.filter_map]
  congr 1
  apply List.filter_congr
  intro w _
  simp

theorem pyWords_props (s : Str) :
    ∀ w ∈ pyWords s, w ≠ [] ∧ ∀ c ∈ w, ¬c.isWhitespace := by
  intro w hw
  rw [pyWords, List.mem_filter] at hw
  exact ⟨by simpa using hw.2, splitWS_no_ws s w hw.1⟩

theorem pyWords_window (s : Str) (i n : ℕ) (h : i + n ≤ (pyWords s).length) :
    (pyWords (joinWords (((pyWords s).drop i).take n))).length = n := by
  rw [pyWords_joinWords]
  · rw [List.length_take, List.length_drop]
    omega
  · intro w hw
    exact pyWords_props s w (List.mem_of_mem_drop (List.mem_of_mem_take hw))

/-- C8: every extracted quote is a window of `n` consecutive words of the
sentence with `5 ≤ n ≤ 15`, and re-splitting the quote itself yields
exactly those `n` words — so each quote has at least 5 and at most 15
words — whose lowercasing occurs verbatim in the lowercased chunk; at
most 2 quotes are retained per sentence; and the report's global quote
list is deduplicated, keeps first-seen order (it is a sublist of the
concatenated per-sentence quote lists), and is capped at 3 entries. -/
theorem quotes_shape_and_caps (sentence chunk : Str) (chunk_texts : List Str)
    (sem : ℕ → ℚ) (answer_sentences : List Str) (semM : ℕ → ℕ → ℚ) :
    (∀ q ∈ extract_matching_phrases sentence chunk,
      ∃ n i, 5 ≤ n ∧ n ≤ 15 ∧
        i + n ≤ (pyWords (pyLower sentence)).length ∧
        q = joinWords (((pyWords sentence).drop i).take n) ∧
        isSub (joinWords (((pyWords (pyLower sentence)).drop i).take n))
          (pyLower chunk) = true ∧
        5 ≤ (pyWords (joinWords (((pyWords (pyLower sentence)).drop i).take n))).length ∧
        (pyWords q).length = n) ∧
    (analyze_sentence_support sentence chunk_texts sem).quotes.length ≤ 2 ∧
    (calculate_faithfulness_metrics answer_sentences chunk_texts semM).extracted_quotes.length ≤ 3 ∧
    (calculate_faithfulness_metrics answer_sentences chunk_texts semM).extracted_quotes.Nodup ∧
    (calculate_faithfulness_metrics answer_sentences chunk_texts semM).extracted_quotes.Sublist
      (((calculate_faithfulness_metrics answer_sentences chunk_texts
        semM).sentence_support.map (fun e => e.info.quotes)).flatten) := by
  refine ⟨?_, ?_, ?_, ?_, ?_⟩
  · intro q hq
    obtain ⟨n, i, h5, h14, hi, heq, hsub, hlow⟩ :=
      extract_matching_phrases_mem sentence chunk q hq
    have hlen : (pyWords (pyLower sentence)).length = (pyWords sentence).length := by
      rw [pyLower, pyWords_map_toLower, List.length_map]
    refine ⟨n, i, h5, by omega, hi, heq, hsub, hlow, ?_⟩
    rw [heq]
    exact pyWords_window sentence i n (by omega)
  · simp only [analyze_sentence_support]
    exact List.length_take_le _ _
  · simp only [calculate_faithfulness_metrics]
    exact List.length_take_le _ _
  · simp only [calculate_faithfulness_metrics]
    refine List.Nodup.sublist (List.take_sublist _ _) ?_
    rw [show (fun (acc : List Str) (e : SentenceSupportEntry) => dedupAppend acc e.info.quotes)
      = (fun acc e => dedupAppend acc ((fun e : SentenceSupportEntry => e.info.quotes) e)) from rfl,
      ← List.foldl_map]
    exact foldl_dedupAppend_nodup _ [] List.nodup_nil
  · simp only [calculate_faithfulness_metrics]
    refine (List.take_sublist _ _).trans ?_
    rw [show (fun (acc : List Str) (e : SentenceSupportEntry) => dedupAppend acc e.info.quotes)
      = (fun acc e => dedupAppend acc ((fun e : SentenceSupportEntry => e.info.quotes) e)) from rfl,
      ← List.foldl_map]
    simpa using foldl_dedupAppend_sublist _ []

/-! ## C3 — sentence support and confidence -/

set_option maxHeartbeats 1000000 in
theorem supportFold_invariant (sentence : Str) (sem : ℕ → ℚ)
    (ps : List (ℕ × Str)) (acc : SupportAcc) :
    (((ps.foldl (supportStep ((tokenize (pyLower sentence)).dedup) sentence sem)
        acc).maxLex > 3/10 ∨
      (ps.foldl (supportStep ((tokenize (pyLower sentence)).dedup) sentence sem)
        acc).maxSem > 1/2 ∨
      (ps.foldl (supportStep ((tokenize (pyLower sentence)).dedup) sentence sem)
        acc).quotes ≠ []) ↔
      ((acc.maxLex > 3/10 ∨ acc.maxSem > 1/2 ∨ acc.quotes ≠ []) ∨
        ∃ p ∈ ps, supportCond sentence sem p)) ∧
    max (ps.foldl (supportStep ((tokenize (pyLower sentence)).dedup) sentence sem)
        acc).maxLex
      (ps.foldl (supportStep ((tokenize (pyLower sentence)).dedup) sentence sem)
        acc).maxSem =
      (ps.filter (fun p => decide (supportCond sentence sem p))).foldl
        (fun m p => max m (max (lexOverlap ((tokenize (pyLower sentence)).dedup)
          ((tokenize (pyLower p.2)).dedup)) (clamp01 (sem p.1))))
        (max acc.maxLex acc.maxSem) := by
  induction ps generalizing acc with
  | nil => simp
  | cons x ps ih =>
    rw [List.foldl_cons]
    by_cases hx : supportCond sentence sem x
    · have hx' : lexOverlap ((tokenize (pyLower sentence)).dedup)
          ((tokenize (pyLower x.2)).dedup) > 3/10 ∨
          clamp01 (sem x.1) > 1/2 ∨ extract_matching_phrases sentence x.2 ≠ [] := hx
      have hstep : supportStep ((tokenize (pyLower sentence)).dedup) sentence sem acc x =
          { sup := acc.sup ++ [x.1]
            quotes := acc.quotes ++ extract_matching_phrases sentence x.2
            maxLex := max acc.maxLex (lexOverlap ((tokenize (pyLower sentence)).dedup)
              ((tokenize (pyLower x.2)).dedup))
            maxSem := max acc.maxSem (clamp01 (sem x.1)) } := by
        simp only [supportStep]
        rw [if_pos hx']
      rw [hstep]
      obtain ⟨ih1, ih2⟩ := ih
        { sup := acc.sup ++ [x.1]
          quotes := acc.quotes ++ extract_matching_phrases sentence x.2
          maxLex := max acc.maxLex (lexOverlap ((tokenize (pyLower sentence)).dedup)
            ((tokenize (pyLower x.2)).dedup))
          maxSem := max acc.maxSem (clamp01 (sem x.1)) }
      constructor
      · rw [ih1]
        simp only [List.mem_cons]
        constructor
        · intro _
          exact Or.inr ⟨x, Or.inl rfl, hx⟩
        · intro _
          left
          rcases hx' with h' | h' | h'
          · exact Or.inl (lt_of_lt_of_le h' (le_max_right _ _))
          · exact Or.inr (Or.inl (lt_of_lt_of_le h' (le_max_right _ _)))
          · exact Or.inr (Or.inr (by simp [h']))
      · rw [ih2]
        have hfilter : ((x :: ps).filter (fun p => decide (supportCond sentence sem p))) =
            x :: (ps.filter (fun p => decide (supportCond sentence sem p))) :=
          List.filter_cons_of_pos (by simpa using hx)
        rw [hfilter, List.foldl_cons]
        congr 1
        simp only
        rw [max_max_max_comm]
    · have hx' : ¬(lexOverlap ((tokenize (pyLower sentence)).dedup)
          ((tokenize (pyLower x.2)).dedup) > 3/10 ∨
          clamp01 (sem x.1) > 1/2 ∨ extract_matching_phrases sentence x.2 ≠ []) := hx
      have hstep : supportStep ((tokenize (pyLower sentence)).dedup) sentence sem acc x
          = acc := by
        simp only [supportStep]
        rw [if_neg hx']
      rw [hstep]
      obtain ⟨ih1, ih2⟩ := ih acc
      constructor
      · rw [ih1]
        simp only [List.mem_cons]
        constructor
        · intro h
          rcases h with h | ⟨p, hp, hc⟩
          · exact Or.inl h
          · exact Or.inr ⟨p, Or.inr hp, hc⟩
        · intro h
          rcases h with h | ⟨p, hp, hc⟩
          · exact Or.inl h
          · rcases hp with rfl | hp
            · exact absurd hc hx
            · exact Or.inr ⟨p, hp, hc⟩
      · rw [ih2, List.filter_cons_of_neg (by simpa using hx)]

/-- C3 (amended): a sentence is supported iff some chunk passes the
support threshold (lexical overlap above 0.3, clamped semantic similarity
above 0.5, or a matching phrase); the returned confidence is the rounded
`max(lexical_overlap, semantic_similarity)` across the chunks that pass
the support threshold (`0` when none does) — not across all chunks. -/
theorem analyze_sentence_support_spec (sentence : Str) (chunk_texts : List Str)
    (sem : ℕ → ℚ) :
    ((analyze_sentence_support sentence chunk_texts sem).supported = true ↔
      ∃ p ∈ chunk_texts.enum, supportCond sentence sem p) ∧
    (analyze_sentence_support sentence chunk_texts sem).confidence =
      pyRound 3 ((chunk_texts.enum.filter
        (fun p => decide (supportCond sentence sem p))).foldl
        (fun m p => max m (max (lexOverlap ((tokenize (pyLower sentence)).dedup)
          ((tokenize (pyLower p.2)).dedup)) (clamp01 (sem p.1)))) 0) := by
  obtain ⟨h1, h2⟩ := supportFold_invariant sentence sem chunk_texts.enum ⟨[], [], 0, 0⟩
  constructor
  · simp only [analyze_sentence_support]
    rw [decide_eq_true_eq, h1]
    norm_num
  · simp only [analyze_sentence_support]
    rw [h2]
    norm_num

/-- C3 counterexample: with sentence "alpha bravo charlie delta echo",
chunk 0 = "alpha bravo" (lexical overlap 2/5 > 0.3, so supporting) and
chunk 1 = "zulu" (semantic similarity exactly 0.5, not above the strict
threshold, so not supporting), the code returns confidence `2/5`,
while the claimed max over **all** chunks is `1/2`. -/
theorem analyze_sentence_support_confidence_cex :
    (analyze_sentence_support (str "alpha bravo charlie delta echo")
      [str "alpha bravo", str "zulu"]
      (fun i => if i = 1 then 1/2 else 0)).confidence = 2/5 ∧
    confidenceSpecAllChunks (str "alpha bravo charlie delta echo")
      [str "alpha bravo", str "zulu"]
      (fun i => if i = 1 then 1/2 else 0) = 1/2 ∧
    ((2 : ℚ)/5 ≠ 1/2) := by
  have dA : extract_matching_phrases (str "alpha bravo charlie delta echo")
      (str "alpha bravo") = [] := by decide
  have dB : extract_matching_phrases (str "alpha bravo charlie delta echo")
      (str "zulu") = [] := by decide
  have hne : ¬((tokenize (pyLower (str "alpha bravo charlie delta echo"))).dedup = [] ∨
      (tokenize (pyLower (str "alpha bravo"))).dedup = []) := by decide
  have hneB : ¬((tokenize (pyLower (str "alpha bravo charlie delta echo"))).dedup = [] ∨
      (tokenize (pyLower (str "zulu"))).dedup = []) := by decide
  have hfA : (((tokenize (pyLower (str "alpha bravo charlie delta echo"))).dedup).filter
      (fun t => t ∈ (tokenize (pyLower (str "alpha bravo"))).dedup)).length = 2 := by decide
  have hfB : (((tokenize (pyLower (str "alpha bravo charlie delta echo"))).dedup).filter
      (fun t => t ∈ (tokenize (pyLower (str "zulu"))).dedup)).length = 0 := by decide
  have hlenS : ((tokenize (pyLower (str "alpha bravo charlie delta echo"))).dedup).length = 5 := by
    decide
  have hlexA : lexOverlap ((tokenize (pyLower (str "alpha bravo charlie delta echo"))).dedup)
      ((tokenize (pyLower (str "alpha bravo"))).dedup) = 2/5 := by
    rw [lexOverlap, if_neg hne, hfA, hlenS]
    norm_num
  have hlexB : lexOverlap ((tokenize (pyLower (str "alpha bravo charlie delta echo"))).dedup)
      ((tokenize (pyLower (str "zulu"))).dedup) = 0 := by
    rw [lexOverlap, if_neg hneB, hfB]
    norm_num
  refine ⟨?_, ?_, by norm_num⟩
  · simp only [analyze_sentence_support]
    rw [show ([str "alpha bravo", str "zulu"] : List Str).enum
      = [(0, str "alpha bravo"), (1, str "zulu")] from rfl]
    rw [List.foldl_cons, List.foldl_cons, List.foldl_nil]
    have hstep1 : supportStep
        ((tokenize (pyLower (str "alpha bravo charlie delta echo"))).dedup)
        (str "alpha bravo charlie delta echo")
        (fun i => if i = 1 then 1/2 else 0)
        ⟨[], [], 0, 0⟩ (0, str "alpha bravo") =
        ⟨[0], [], 2/5, 0⟩ := by
      simp only [supportStep]
      rw [if_pos (Or.inl (show lexOverlap
        ((tokenize (pyLower (str "alpha bravo charlie delta echo"))).dedup)
        ((tokenize (pyLower (str "alpha bravo"))).dedup) > 3/10 by
          rw [hlexA]; norm_num))]
      rw [dA, hlexA]
      norm_num [clamp01]
    rw [hstep1]
    have hstep2 : supportStep
        ((tokenize (pyLower (str "alpha bravo charlie delta echo"))).dedup)
        (str "alpha bravo charlie delta echo")
        (fun i => if i = 1 then 1/2 else 0)
        ⟨[0], [], 2/5, 0⟩ (1, str "zulu") = ⟨[0], [], 2/5, 0⟩ := by
      simp only [supportStep]
      rw [if_neg]
      rw [hlexB, dB]
      norm_num [clamp01]
    rw [hstep2]
    show pyRound 3 (max (2/5) 0) = 2/5
    rw [show max ((2:ℚ)/5) 0 = 2/5 from max_eq_left (by norm_num)]
    rw [pyRound, rndHalfEven]
    norm_num [Int.fract, round_eq]
  · simp only [confidenceSpecAllChunks]
    rw [show ([str "alpha bravo", str "zulu"] : List Str).enum
      = [(0, str "alpha bravo"), (1, str "zulu")] from rfl]
    simp only [List.map_cons, List.map_nil, List.foldl_cons, List.foldl_nil]
    rw [hlexA, hlexB]
    norm_num [clamp01]
    rw [pyRound, rndHalfEven]
    norm_num [Int.fract, round_eq]

/-- Witness for C8: with the sentence equal to the chunk, the whole
5-word sentence is extracted as a quote, discharging the membership
hypothesis of the per-quote property. -/
theorem quotes_shape_and_caps_witness :
    ∃ n i, 5 ≤ n ∧ n ≤ 15 ∧
      i + n ≤ (pyWords (pyLower (str "alpha bravo charlie delta echo"))).length ∧
      str "alpha bravo charlie delta echo" =
        joinWords (((pyWords (str "alpha bravo charlie delta echo")).drop i).take n) ∧
      isSub (joinWords (((pyWords (pyLower (str "alpha bravo charlie delta echo"))).drop
        i).take n)) (pyLower (str "alpha bravo charlie delta echo")) = true ∧
      5 ≤ (pyWords (joinWords (((pyWords (pyLower
        (str "alpha bravo charlie delta echo"))).drop i).take n))).length ∧
      (pyWords (str "alpha bravo charlie delta echo")).length = n :=
  (quotes_shape_and_caps (str "alpha bravo charlie delta echo")
    (str "alpha bravo charlie delta echo") [] (fun _ => 0) [] (fun _ _ => 0)).1
    (str "alpha bravo charlie delta echo") (by decide)

/-! ## C10 — similarity_search result shape -/

theorem mem_insertDesc {α : Type _} (key : α → ℝ) (x : α) (l : List α) (b : α) :
    b ∈ insertDesc key x l ↔ b = x ∨ b ∈ l := by
  induction l with
  | nil => simp [insertDesc]
  | cons y ys ih =>
    rw [insertDesc]
    split
    · simp [List.mem_cons]
    · simp only [List.mem_cons, ih]
      tauto

theorem length_insertDesc {α : Type _} (key : α → ℝ) (x : α) (l : List α) :
    (insertDesc key x l).length = l.length + 1 := by
  induction l with
  | nil => rfl
  | cons y ys ih =>
    rw [insertDesc]
    split
    · rfl
    · simp [ih]

theorem length_sortDesc {α : Type _} (key : α → ℝ) (l : List α) :
    (sortDesc key l).length = l.length := by
  induction l with
  | nil => rfl
  | cons x xs ih =>
    rw [sortDesc, length_insertDesc, ih]
    rfl

theorem mem_sortDesc {α : Type _} (key : α → ℝ) (l : List α) (b : α) :
    b ∈ sortDesc key l ↔ b ∈ l := by
  induction l with
  | nil => simp [sortDesc]
  | cons x xs ih =>
    rw [sortDesc, mem_insertDesc, ih]
    simp [List.mem_cons]

theorem sorted_insertDesc {α : Type _} (key : α → ℝ) (x : α) (l : List α)
    (h : l.Sorted (fun a b => key b ≤ key a)) :
    (insertDesc key x l).Sorted (fun a b => key b ≤ key a) := by
  induction l with
  | nil => simp [insertDesc]
  | cons y ys ih =>
    rw [List.sorted_cons] at h
    obtain ⟨hy, hys⟩ := h
    rw [insertDesc]
    split
    · rename_i hlt
      rw [List.sorted_cons]
      refine ⟨?_, by rw [List.sorted_cons]; exact ⟨hy, hys⟩⟩
      intro b hb
      rcases List.mem_cons.mp hb with rfl | hb
      · exact le_of_lt hlt
      · exact le_trans (hy b hb) (le_of_lt hlt)
    · rename_i hge
      rw [List.sorted_cons]
      refine ⟨?_, ih hys⟩
      intro b hb
      rcases (mem_insertDesc key x ys b).mp hb with rfl | hb
      · exact not_lt.mp hge
      · exact hy b hb

theorem sorted_sortDesc {α : Type _} (key : α → ℝ) (l : List α) :
    (sortDesc key l).Sorted (fun a b => key b ≤ key a) := by
  induction l with
  | nil => simp [sortDesc]
  | cons x xs ih => exact sorted_insertDesc key x _ ih

theorem pySlice_sublist {α : Type _} (l : List α) (k : ℤ) :
    (pySlice l k).Sublist l := by
  rw [pySlice]
  split <;> exact List.take_sublist _ _

theorem pySlice_length_le {α : Type _} (l : List α) (k : ℤ) (hk : 0 ≤ k) :
    ((pySlice l k).length : ℤ) ≤ k := by
  rw [pySlice, if_pos hk]
  have h := List.length_take_le k.toNat l
  have h2 := Int.toNat_of_nonneg hk
  omega

/-- C10 (amended): `similarity_search` returns records sorted by
non-increasing score; the empty store and a document filter matching no
record yield `[]`; records whose embedding is not a list are skipped; and
the result has at most `k` entries when `k ≥ 0` (a negative `k` instead
drops the `|k|` lowest-scoring entries, by Python slice semantics). -/
theorem similarity_search_spec (query_embedding : List ℝ) (k : ℤ)
    (doc_name : Option Str) (similarity : String) (query_text : Option Str)
    (records : List ChunkRecord) :
    (records = [] →
      similarity_search query_embedding k doc_name similarity query_text records = []) ∧
    (∀ d, doc_name = some d → records.filter (fun r => r.doc_name = d) = [] →
      similarity_search query_embedding k doc_name similarity query_text records = []) ∧
    (0 ≤ k → ((similarity_search query_embedding k doc_name similarity query_text
      records).length : ℤ) ≤ k) ∧
    (similarity_search query_embedding k doc_name similarity query_text records).Sorted
      (fun a b => b.score ≤ a.score) ∧
    (∀ s ∈ similarity_search query_embedding k doc_name similarity query_text records,
      s.record ∈ records ∧ s.record.embedding.isSome = true) := by
  have hchar : similarity_search query_embedding k doc_name similarity query_text
      records = [] ∨
      ∃ results : List ScoredRecord,
        (∀ s ∈ results, s.record ∈ records ∧ s.record.embedding.isSome = true) ∧
        similarity_search query_embedding k doc_name similarity query_text records =
          pySlice (sortDesc (fun s => s.score) results) k := by
    simp only [similarity_search]
    split_ifs
    all_goals try exact Or.inl rfl
    all_goals
      refine Or.inr ⟨_, ?_, rfl⟩
      intro s hs
      obtain ⟨r, hr, heq⟩ := List.mem_filterMap.mp hs
      have hrrec : r ∈ records := by
        rcases doc_name with _ | d
        · exact hr
        · exact List.mem_of_mem_filter hr
      cases hre : r.embedding with
      | none =>
        rw [hre] at heq
        simp at heq
      | some emb =>
        rw [hre] at heq
        simp only [Option.some_inj] at heq
        subst heq
        exact ⟨hrrec, by rw [hre]; rfl⟩
  refine ⟨?_, ?_, ?_, ?_, ?_⟩
  · intro h
    subst h
    rfl
  · intro d hd hfilt
    subst hd
    simp only [similarity_search]
    by_cases h0 : records.isEmpty
    · rw [if_pos h0]
    · rw [if_neg h0]
      rw [if_pos (show (records.filter (fun r => r.doc_name = d)).isEmpty = true by
        rw [hfilt]; rfl)]
  · intro hk
    rcases hchar with h | ⟨results, _, h⟩
    · rw [h]
      simpa using hk
    · rw [h]
      exact pySlice_length_le _ k hk
  · rcases hchar with h | ⟨results, _, h⟩
    · rw [h]
      exact List.sorted_nil
    · rw [h]
      exact List.Pairwise.sublist (pySlice_sublist _ k) (sorted_sortDesc _ results)
  · intro s hs
    rcases hchar with h | ⟨results, hmem, h⟩
    · rw [h] at hs
      simp at hs
    · rw [h] at hs
      have := (pySlice_sublist (sortDesc (fun s => s.score) results) k).mem hs
      exact hmem s ((mem_sortDesc _ _ _).mp this)

/-- C10 counterexample: a two-record store with `k = -1` returns one
record (Python's `results[:-1]` drops the last entry), which is not
"at most k records" for the negative `k`. -/
theorem similarity_search_count_cex :
    (similarity_search [1] (-1) none "dot" none
      [⟨str "d", str "t1", some [1]⟩, ⟨str "d", str "t2", some [1]⟩]).length = 1 ∧
    ¬((1 : ℤ) ≤ -1) := by
  constructor
  · simp only [similarity_search, List.isEmpty_cons, List.filterMap_cons]
    rw [if_neg (by simp)]
    simp only [List.filterMap_nil]
    rw [if_neg (by simp), if_neg (by simp)]
    rw [pySlice, if_neg (by norm_num)]
    rw [List.length_take, length_sortDesc]
    rfl
  · norm_num

/-- Witness for C10 on the empty store with `k = 5`: the search returns
`[]`, trivially within the `k` bound. -/
theorem similarity_search_spec_witness :
    similarity_search [1] 5 none "cosine" none [] = [] ∧
    similarity_search [1] 5 (some (str "d")) "cosine" none [] = [] ∧
    ((similarity_search [1] 5 none "cosine" none []).length : ℤ) ≤ 5 :=
  ⟨(similarity_search_spec [1] 5 none "cosine" none []).1 rfl,
   (similarity_search_spec [1] 5 (some (str "d")) "cosine" none []).2.1
     (str "d") rfl rfl,
   (similarity_search_spec [1] 5 none "cosine" none []).2.2.1 (by norm_num)⟩

/-! ## C4 — the hybrid score -/

theorem listDot_comm (a b : List ℝ) : listDot a b = listDot b a := by
  induction a generalizing b with
  | nil => cases b <;> simp [listDot]
  | cons x a ih =>
    cases b with
    | nil => simp [listDot]
    | cons y b =>
      simp only [listDot, List.zipWith_cons_cons, List.sum_cons] at *
      rw [ih b, mul_comm]

theorem listDot_map_div_left (a b : List ℝ) (c : ℝ) :
    listDot (a.map (fun x => x / c)) b = listDot a b / c := by
  induction a generalizing b with
  | nil => simp [listDot]
  | cons x a ih =>
    cases b with
    | nil => simp [listDot]
    | cons y b =>
      simp only [List.map_cons, listDot, List.zipWith_cons_cons, List.sum_cons] at *
      rw [ih b]
      ring

theorem sumSq_map_div (a : List ℝ) (c : ℝ) :
    sumSq (a.map (fun x => x / c)) = sumSq a / (c * c) := by
  rw [sumSq, listDot_map_div_left, listDot_comm, listDot_map_div_left, listDot_comm,
    sumSq, div_div]

theorem l2norm_map_div (a : List ℝ) (c : ℝ) (hc : 0 < c) :
    l2norm (a.map (fun x => x / c)) = l2norm a / c := by
  rw [l2norm, sumSq_map_div, show c * c = c ^ 2 by ring,
    Real.sqrt_div (sumSq_nonneg a), Real.sqrt_sq hc.le, l2norm]

theorem cosine_div_left (a b : List ℝ) (c : ℝ) (hc : 0 < c) :
    cosine_similarity (a.map (fun x => x / c)) b = cosine_similarity a b := by
  by_cases hlen : a.length ≠ b.length
  · rw [cosine_similarity, cosine_similarity, if_pos (by simpa using hlen),
      if_pos hlen]
  · rw [cosine_similarity, cosine_similarity, if_neg (by simpa using hlen),
      if_neg hlen, l2norm_map_div a c hc]
    by_cases hz : l2norm a = 0 ∨ l2norm b = 0
    · have hz' : l2norm a / c = 0 ∨ l2norm b = 0 := by
        rcases hz with h | h
        · exact Or.inl (by rw [h, zero_div])
        · exact Or.inr h
      rw [if_pos hz', if_pos hz]
    · push_neg at hz
      rw [if_neg (by push_neg; exact ⟨div_ne_zero hz.1 hc.ne', hz.2⟩),
        if_neg (by push_neg; exact hz), listDot_map_div_left]
      field_simp

theorem cosine_similarity_comm (a b : List ℝ) :
    cosine_similarity a b = cosine_similarity b a := by
  rw [cosine_similarity, cosine_similarity, listDot_comm]
  by_cases hlen : a.length ≠ b.length
  · rw [if_pos hlen, if_pos (Ne.symm hlen)]
  · rw [if_neg hlen, if_neg (fun h => hlen (Ne.symm h))]
    by_cases hz : l2norm a = 0 ∨ l2norm b = 0
    · rw [if_pos hz, if_pos (Or.symm hz)]
    · rw [if_neg hz, if_neg (fun h => hz (Or.symm h)), mul_comm]

theorem cosine_div_right (a b : List ℝ) (c : ℝ) (hc : 0 < c) :
    cosine_similarity a (b.map (fun x => x / c)) = cosine_similarity a b := by
  rw [cosine_similarity_comm, cosine_div_left b a c hc, cosine_similarity_comm]

/-- Cosine similarity is invariant under `_l2_normalize` of either
argument (including the `eps` guard branches). -/
theorem cosine_l2_normalize (a b : List ℝ) :
    cosine_similarity (l2_normalize a) (l2_normalize b) = cosine_similarity a b := by
  simp only [l2_normalize]
  have ha : ¬(l2norm a ≤ 1 / 10 ^ 12) → 0 < l2norm a := by
    intro h
    have h12 : (0:ℝ) < 1 / 10 ^ 12 := by norm_num
    push_neg at h
    linarith
  have hb : ¬(l2norm b ≤ 1 / 10 ^ 12) → 0 < l2norm b := by
    intro h
    have h12 : (0:ℝ) < 1 / 10 ^ 12 := by norm_num
    push_neg at h
    linarith
  split_ifs with h1 h2 h3
  · rfl
  · rw [cosine_div_right a _ _ (hb h2)]
  · rw [cosine_div_left a b _ (ha h1)]
  · rw [cosine_div_right _ _ _ (hb h3), cosine_div_left _ _ _ (ha h1)]

/-- C4 (amended): the hybrid score is
`0.7 * cosine(queryVector, chunkVector) + 0.3 * jaccard` where the
Jaccard term tokenizes by lowercasing and splitting on **whitespace**
(not on non-word characters), and is `0` when either token set is empty;
this holds with and without vector normalization. -/
theorem calculate_all_similarities_hybrid (query_embedding chunk_embedding : List ℝ)
    (chunk_text query_text : Str) (normalize_vectors : Bool) :
    (calculate_all_similarities query_embedding chunk_embedding chunk_text
      query_text normalize_vectors).hybrid =
      0.7 * cosine_similarity query_embedding chunk_embedding +
        0.3 * keyword_overlap query_text chunk_text := by
  cases normalize_vectors with
  | false => rfl
  | true =>
    simp only [calculate_all_similarities, if_pos]
    rw [cosine_l2_normalize]

/-- C4 counterexample: with query text "a" and chunk text "a.", the
whitespace tokenizer of the code sees disjoint token sets ("a" vs "a."),
giving hybrid `0.7·1 + 0.3·0 = 0.7` for identical unit vectors, while
the claimed non-word-character tokenizer sees identical sets, demanding
`0.7·1 + 0.3·1 = 1`. -/
theorem hybrid_tokenize_cex :
    (calculate_all_similarities [1] [1] (str "a.") (str "a") true).hybrid = 0.7 ∧
    hybridSpec [1] [1] (str "a") (str "a.") = 1 ∧
    ((0.7 : ℝ) ≠ 1) := by
  have hl : l2norm [(1:ℝ)] = 1 := by
    simp [l2norm, sumSq, listDot]
  have hcos : cosine_similarity [(1:ℝ)] [1] = 1 := by
    rw [cosine_similarity, if_neg (by simp), if_neg (by simp [hl]), hl]
    simp [listDot]
  have hl2n : l2_normalize [(1:ℝ)] = [1] := by
    simp only [l2_normalize]
    rw [hl, if_neg (by norm_num)]
    norm_num
  have hq0 : ¬((pyWords (pyLower (str "a"))).dedup = [] ∨
      (pyWords (pyLower (str "a."))).dedup = []) := by decide
  have hf0 : (((pyWords (pyLower (str "a"))).dedup).filter
      (fun t => t ∈ (pyWords (pyLower (str "a."))).dedup)).length = 0 := by decide
  have hkw : keyword_overlap (str "a") (str "a.") = 0 := by
    simp only [keyword_overlap]
    rw [if_neg hq0, hf0]
    norm_num
  refine ⟨?_, ?_, by norm_num⟩
  · simp only [calculate_all_similarities, if_pos]
    rw [hl2n, hcos, hkw]
    norm_num
  · have hq1 : ¬((tokenize (pyLower (str "a"))).dedup = [] ∨
        (tokenize (pyLower (str "a."))).dedup = []) := by decide
    have hf1 : (((tokenize (pyLower (str "a"))).dedup).filter
        (fun t => t ∈ (tokenize (pyLower (str "a."))).dedup)).length = 1 := by decide
    have hlen1 : ((tokenize (pyLower (str "a"))).dedup).length = 1 := by decide
    have hf2 : (((tokenize (pyLower (str "a."))).dedup).filter
        (fun t => t ∉ (tokenize (pyLower (str "a"))).dedup)).length = 0 := by decide
    simp only [hybridSpec]
    rw [if_neg hq1, hf1, hlen1, hf2, hcos]
    norm_num

/-! ## C2 — the method agreement matrix -/

theorem filter_mem_length_comm (t1 t2 : List Str) (h1 : t1.Nodup) (h2 : t2.Nodup) :
    (t1.filter (fun t => t ∈ t2)).length = (t2.filter (fun t => t ∈ t1)).length := by
  have e : ∀ (u v : List Str), u.Nodup →
      (u.filter (fun t => t ∈ v)).length = (u.toFinset ∩ v.toFinset).card := by
    intro u v hu
    rw [← List.toFinset_card_of_nodup (hu.filter _), List.toFinset_filter]
    congr 1
    ext a
    simp [List.mem_toFinset]
  rw [e t1 t2 h1, e t2 t1 h2, Finset.inter_comm]

theorem method_agreement_entry_comm (t1 t2 : List Str) (k : ℤ)
    (h1 : t1.Nodup) (h2 : t2.Nodup) :
    method_agreement_entry t1 t2 k = method_agreement_entry t2 t1 k := by
  simp only [method_agreement_entry]
  split_ifs with hk
  · rw [filter_mem_length_comm t1 t2 h1 h2]
  · rfl

theorem textsOf_nodup (l : List RankedChunk) : (textsOf l).Nodup := List.nodup_dedup _

theorem top_k_for_method_singleton (c : ScoredChunk) (k : ℤ) (m : String)
    (hk : 0 < k) :
    top_k_for_method [c] k m =
      [{ chunk := c, rank := 1, primary_score := c.all_scores.get m }] := by
  simp only [top_k_for_method]
  have hs : sortDesc (fun x => x.all_scores.get m) [c] = [c] := rfl
  rw [hs, pySlice, if_pos hk.le]
  cases hn : k.toNat with
  | zero => omega
  | succ n => simp [List.take_succ_cons, List.enum, List.enumFrom]

/-- C2 (amended): the method agreement matrix of
`get_chunks_for_all_methods` is symmetric; for `k > 0` each entry is
`round(|top_k(m1) ∩ top_k(m2)| / k * 100, 1)` over the deduplicated text
sets and for `k ≤ 0` each entry is `0`; the diagonal entry for a method
is `100` whenever its top-k list contains `k` distinct texts, but it is
not always `100` (the code divides by `k`, not by the actual top-k
size, so a one-chunk pool with `k = 2` yields `50`). -/
theorem method_agreement_matrix_spec :
    (∀ (query_text : Str) (k : ℤ) (doc_name : Option Str) (nv : Bool)
        (qe : List ℝ) (records : List ChunkRecord) (m1 m2 : String),
      agreementOf (get_chunks_for_all_methods query_text k doc_name nv qe records)
        m1 m2 =
      agreementOf (get_chunks_for_all_methods query_text k doc_name nv qe records)
        m2 m1) ∧
    (∀ (t1 t2 : List Str) (k : ℤ), 0 < k →
      method_agreement_entry t1 t2 k =
        pyRound 1 ((((t1.filter (fun t => t ∈ t2)).length : ℚ) / (k : ℚ)) * 100)) ∧
    (∀ (t1 t2 : List Str) (k : ℤ), ¬0 < k → method_agreement_entry t1 t2 k = 0) ∧
    (∀ (cws : List ScoredChunk) (k : ℤ) (m : String), 0 < k →
      ((textsOf (top_k_for_method cws k m)).length : ℤ) = k →
      method_agreement_entry (textsOf (top_k_for_method cws k m))
        (textsOf (top_k_for_method cws k m)) k = 100) := by
  refine ⟨?_, ?_, ?_, ?_⟩
  · intro qt k dn nv qe records m1 m2
    simp only [get_chunks_for_all_methods]
    split_ifs with h0 h1 h2
    · rfl
    · rfl
    · rfl
    · simp only [agreementOf]
      congr 1
      exact method_agreement_entry_comm _ _ k (textsOf_nodup _) (textsOf_nodup _)
  · intro t1 t2 k hk
    simp only [method_agreement_entry]
    rw [if_pos hk]
  · intro t1 t2 k hk
    simp only [method_agreement_entry]
    rw [if_neg hk]
  · intro cws k m hk hlen
    simp only [method_agreement_entry]
    rw [if_pos hk]
    rw [List.filter_eq_self.mpr (fun a ha => by simpa using ha)]
    have hkq : ((textsOf (top_k_for_method cws k m)).length : ℚ) = (k : ℚ) := by
      exact_mod_cast congrArg (fun z : ℤ => (z : ℚ)) hlen
    rw [hkq, div_self (by exact_mod_cast hk.ne')]
    rw [pyRound, rndHalfEven]
    norm_num [Int.fract, round_eq]

/-- C2 counterexample: a one-chunk pool with `k = 2` gives the diagonal
entry `round(1/2*100, 1) = 50`, not `100`. -/
theorem method_agreement_diag_cex :
    agreementOf (get_chunks_for_all_methods (str "q") 2 none true [1]
      [{ doc_name := str "d", text := str "t", embedding := some [1] }])
      "cosine" "cosine" = some 50 ∧
    ((50 : ℚ) ≠ 100) := by
  constructor
  · simp only [get_chunks_for_all_methods, filteredRecords, optTruthy,
      chunksWithScores]
    norm_num [List.filterMap_cons, List.filterMap_nil]
    simp only [agreementOf]
    rw [top_k_for_method_singleton _ _ _ (by norm_num)]
    simp only [textsOf, List.map_cons, List.map_nil]
    rw [show ([str "t"] : List Str).dedup = [str "t"] from by decide]
    simp only [method_agreement_entry]
    rw [if_pos (by norm_num : (0:ℤ) < 2)]
    rw [show (([str "t"] : List Str).filter
      (fun t => t ∈ ([str "t"] : List Str))).length = 1 from by decide]
    rw [pyRound, rndHalfEven]
    norm_num [Int.fract, round_eq]
  · norm_num

/-- Witness for C2 on concrete inputs: symmetry on the empty store,
the `k > 0` entry formula, the `k ≤ 0` zero entry, and the diagonal
value 100 for a single chunk with `k = 1`. -/
theorem method_agreement_matrix_spec_witness :
    (agreementOf (get_chunks_for_all_methods (str "q") 1 none true [1] [])
        "cosine" "dot" =
      agreementOf (get_chunks_for_all_methods (str "q") 1 none true [1] [])
        "dot" "cosine") ∧
    method_agreement_entry [str "t"] [str "u"] 2 =
      pyRound 1 (((([str "t"].filter
        (fun t => t ∈ ([str "u"] : List Str))).length : ℚ) / (2:ℚ)) * 100) ∧
    method_agreement_entry [str "t"] [str "t"] 0 = 0 ∧
    method_agreement_entry
      (textsOf (top_k_for_method
        [{ doc_name := str "d", text := str "t",
           all_scores := ⟨0, 0, 0, 0, 0⟩, chunk_length := 1 }] 1 "cosine"))
      (textsOf (top_k_for_method
        [{ doc_name := str "d", text := str "t",
           all_scores := ⟨0, 0, 0, 0, 0⟩, chunk_length := 1 }] 1 "cosine")) 1 = 100 := by
  refine ⟨method_agreement_matrix_spec.1 (str "q") 1 none true [1] [] "cosine" "dot",
    method_agreement_matrix_spec.2.1 [str "t"] [str "u"] 2 (by norm_num),
    method_agreement_matrix_spec.2.2.1 [str "t"] [str "t"] 0 (by norm_num),
    method_agreement_matrix_spec.2.2.2 _ 1 "cosine" (by norm_num) ?_⟩
  rw [top_k_for_method_singleton _ _ _ (by norm_num)]
  simp only [textsOf, List.map_cons, List.map_nil]
  rw [show ([str "t"] : List Str).dedup = [str "t"] from by decide]
  rfl

/-! ## C6 — error handling in get_chunks_for_all_methods -/

theorem length_l2_normalize (v : List ℝ) : (l2_normalize v).length = v.length := by
  simp only [l2_normalize]
  split <;> simp

/-- C6 (amended): an empty pool yields the explicit
`{"error": "No documents available"}` object; a document filter matching
nothing yields `{"error": "No chunks for document: <name>"}`; when some
surviving record has a list embedding the call returns the full result
without raising, and dimension mismatches inside the scoring loop yield
sentinel scores (`0.0` for cosine/dot, `-1e9` for neg_l2/neg_l1); but
when the pool is non-empty and **no** surviving record has a list
embedding, the per-method statistics evaluate `min([])` and the call
raises `ValueError` instead of returning an error object. -/
theorem get_chunks_error_handling (query_text : Str) (k : ℤ) (doc_name : Option Str)
    (nv : Bool) (query_embedding : List ℝ) (records : List ChunkRecord) :
    (records = [] →
      get_chunks_for_all_methods query_text k doc_name nv query_embedding records =
        .ok (.errObj (str "No documents available"))) ∧
    (∀ d, doc_name = some d → records ≠ [] → optTruthy doc_name = true →
      filteredRecords doc_name records = [] →
      get_chunks_for_all_methods query_text k doc_name nv query_embedding records =
        .ok (.errObj (str "No chunks for document: " ++ d))) ∧
    (records ≠ [] →
      (∃ r ∈ filteredRecords doc_name records, r.embedding.isSome = true) →
      ∃ res, get_chunks_for_all_methods query_text k doc_name nv query_embedding
        records = .ok (.ok res)) ∧
    (records ≠ [] → filteredRecords doc_name records ≠ [] →
      (∀ r ∈ filteredRecords doc_name records, r.embedding = none) →
      get_chunks_for_all_methods query_text k doc_name nv query_embedding records =
        .error "ValueError: min() arg is an empty sequence") ∧
    (∀ emb chunk_text, emb.length ≠ query_embedding.length →
      (calculate_all_similarities query_embedding emb chunk_text query_text
        nv).cosine = 0 ∧
      (calculate_all_similarities query_embedding emb chunk_text query_text
        nv).dot = 0 ∧
      (calculate_all_similarities query_embedding emb chunk_text query_text
        nv).neg_l2 = negBig ∧
      (calculate_all_similarities query_embedding emb chunk_text query_text
        nv).neg_l1 = negBig) := by
  refine ⟨?_, ?_, ?_, ?_, ?_⟩
  · intro h
    subst h
    rfl
  · intro d hd hne htr hfilt
    subst hd
    simp only [get_chunks_for_all_methods]
    rw [if_neg (by simpa [List.isEmpty_iff] using hne)]
    rw [if_pos ⟨htr, by rw [hfilt]; rfl⟩]
    rfl
  · intro hne ⟨r, hr, hsome⟩
    obtain ⟨emb, hemb⟩ := Option.isSome_iff_exists.mp hsome
    simp only [get_chunks_for_all_methods]
    rw [if_neg (by simpa [List.isEmpty_iff] using hne)]
    rw [if_neg (by
      rintro ⟨-, h⟩
      rw [List.isEmpty_iff] at h
      rw [h] at hr
      exact absurd hr (List.not_mem_nil r))]
    rw [if_neg (by
      rw [List.isEmpty_iff]
      intro h
      have hmem : (⟨r.doc_name, r.text, calculate_all_similarities query_embedding emb
          r.text query_text nv, r.text.length⟩ : ScoredChunk) ∈
          chunksWithScores query_embedding query_text nv
            (filteredRecords doc_name records) := by
        apply List.mem_filterMap.mpr
        exact ⟨r, hr, by rw [hemb]⟩
      rw [h] at hmem
      exact absurd hmem (List.not_mem_nil _))]
    exact ⟨_, rfl⟩
  · intro hne hfne hall
    simp only [get_chunks_for_all_methods]
    rw [if_neg (by simpa [List.isEmpty_iff] using hne)]
    rw [if_neg (by
      rintro ⟨-, h⟩
      rw [List.isEmpty_iff] at h
      exact hfne h)]
    rw [if_pos (by
      rw [List.isEmpty_iff]
      apply List.filterMap_eq_nil_iff.mpr
      intro r hr
      rw [hall r hr])]
  · intro emb chunk_text hlen
    have h1 : (if nv then l2_normalize query_embedding else query_embedding).length =
        query_embedding.length := by
      cases nv <;> simp [length_l2_normalize]
    have h2 : (if nv then l2_normalize emb else emb).length = emb.length := by
      cases nv <;> simp [length_l2_normalize]
    have hne2 : (if nv then l2_normalize query_embedding else query_embedding).length ≠
        (if nv then l2_normalize emb else emb).length := by
      rw [h1, h2]
      exact fun h => hlen h.symm
    refine ⟨?_, ?_, ?_, ?_⟩
    · simp only [calculate_all_similarities]
      rw [cosine_similarity, if_pos hne2]
    · simp only [calculate_all_similarities]
      rw [dotSim, if_pos hne2]
    · simp only [calculate_all_similarities]
      rw [neg_l2, if_pos hne2]
    · simp only [calculate_all_similarities]
      rw [neg_l1, if_pos hne2]

/-- C6 counterexample: a non-empty pool whose only record has a non-list
embedding reaches `min([])` in the similarity-stats loop and raises
`ValueError`, rather than returning an error object or sentinel. -/
theorem get_chunks_min_raises_cex :
    get_chunks_for_all_methods (str "q") 1 none true [1]
      [{ doc_name := str "d", text := str "t", embedding := none }] =
      .error "ValueError: min() arg is an empty sequence" := rfl

/-- Witness for C6: the empty pool, an unmatched document filter, a
surviving embedded record, a raising all-skipped pool, and a mismatched
chunk vector. -/
theorem get_chunks_error_handling_witness :
    (get_chunks_for_all_methods (str "q") 1 none true [1] [] =
      .ok (.errObj (str "No documents available"))) ∧
    (get_chunks_for_all_methods (str "q") 1 (some (str "b")) true [1]
      [{ doc_name := str "a", text := str "t", embedding := some [1] }] =
      .ok (.errObj (str "No chunks for document: " ++ str "b"))) ∧
    (∃ res, get_chunks_for_all_methods (str "q") 1 none true [1]
      [{ doc_name := str "a", text := str "t", embedding := some [1] }] =
      .ok (.ok res)) ∧
    (get_chunks_for_all_methods (str "q") 1 none true [1]
      [{ doc_name := str "a", text := str "t", embedding := none }] =
      .error "ValueError: min() arg is an empty sequence") ∧
    ((calculate_all_similarities [1] [1, 0] (str "t") (str "q") true).cosine = 0) := by
  refine ⟨?_, ?_, ?_, ?_, ?_⟩
  · exact (get_chunks_error_handling (str "q") 1 none true [1] []).1 rfl
  · exact (get_chunks_error_handling (str "q") 1 (some (str "b")) true [1]
      [{ doc_name := str "a", text := str "t", embedding := some [1] }]).2.1
      (str "b") rfl (by simp) (by decide) rfl
  · exact (get_chunks_error_handling (str "q") 1 none true [1]
      [{ doc_name := str "a", text := str "t", embedding := some [1] }]).2.2.1
      (by simp)
      ⟨{ doc_name := str "a", text := str "t", embedding := some [1] },
        List.mem_cons_self _ _, rfl⟩
  · exact (get_chunks_error_handling (str "q") 1 none true [1]
      [{ doc_name := str "a", text := str "t", embedding := none }]).2.2.2.1
      (by simp) (by simp [filteredRecords, optTruthy])
      (by
        intro r hr
        simp only [filteredRecords, optTruthy] at hr
        rw [if_neg (by simp)] at hr
        rcases List.mem_singleton.mp hr with rfl
        rfl)
  · exact ((get_chunks_error_handling (str "q") 1 none true [1] []).2.2.2.2
      [1, 0] (str "t") (by simp)).1
